import Mathlib

/-!
Verification of infer_yolo_v4: detection decoding, merge, reload state machine
and configuration.

Shallow embedding of `src/YoloV4.cpp` / `src/YoloV4.h`.

Conventions of the embedding
* `std::vector<T>` is `List T`; `push_back` appends at the end.
* The numeric carrier of the decoder is a type `F` with the operations the
  source uses (`*`, `-`, `/`, conversion from `int`, `>`).  Nothing else is
  assumed about `F`, so the decoder theorems hold for every arithmetic with
  these operations, rounded or exact.  Concrete scenarios are evaluated over
  `ℚ` (exact) and over `Float32` (binary32 rounding).
* An access `v[k]` that the source performs without a bound established by
  its own loops is modelled with `Option`: `none` stands for the out-of-range
  access (undefined behaviour in C++).
* `int` counters and sizes are unbounded integers; no theorem relies on a
  value outside the range of `int`.
* A function that can throw returns the state it leaves behind together with
  `Except Exn _`.
* Collaborators that live outside the repository (`cv::dnn::NMSBoxes`,
  `readDnn`, `readClassNames`, `forward`, `std::rand`, the base parameter
  class) are parameters of the definitions that call them; `std::to_string`
  and `std::stod` are modelled after the C and C++ standards (C locale).
-/

namespace YoloV4

/-! ## Data model -/

/-- Pixel rectangle `cv::Rect2d`: top-left corner and size. -/
structure Rect2d (F : Type) where
  x : F
  y : F
  width : F
  height : F
deriving DecidableEq, Repr

/-- Output tensor `cv::Mat` as far as `manageOutput` reads it: the row count
`rows` (a negative count behaves as `0` in the row loop) and the element
accessor `at<float>(i, c)`.  The accessor is total: the tensors are taken to
have the `5 + nbClasses` columns the decoder reads. -/
structure Mat (F : Type) where
  rows : Nat
  at_ : Nat → Nat → F

/-- Tensor given by its rows (used to write concrete tensors); entries outside
the given data read as `0`. -/
def Mat.ofRows {F : Type} [Zero F] (data : List (List F)) : Mat F :=
  { rows := data.length, at_ := fun i c => (data.getD i []).getD c 0 }

/-- Display colour `CColor`: three `uchar` channels. -/
structure CColor where
  r : Nat
  g : Nat
  b : Nat
deriving DecidableEq, Repr

/-- One object as passed to `CObjectDetectionIO::addObject`
(`id, label, confidence, x, y, width, height, color`). -/
structure Detection (F : Type) where
  id : Nat
  label : String
  confidence : F
  x : F
  y : F
  width : F
  height : F
  color : CColor
deriving DecidableEq, Repr

/-- The locals `boxes` and `scores` of `manageOutput`: one list per class. -/
structure Candidates (F : Type) where
  boxes : List (List (Rect2d F))
  scores : List (List F)
deriving DecidableEq, Repr

/-- Signature of `cv::dnn::NMSBoxes(bboxes, scores, score_threshold,
nms_threshold, indices)`; the returned list is the output argument `indices`. -/
abbrev Suppressor (F : Type) := List (Rect2d F) → List F → F → F → List Nat

/-! ## `CYoloV4::manageOutput` -/

section ManageOutput

variable {F : Type}

/-- The statement `v[j].push_back(a)` on a vector of vectors. -/
def pushAt {α : Type} : List (List α) → Nat → α → List (List α)
  | [], _, _ => []
  | l :: ls, 0, a => (l ++ [a]) :: ls
  | l :: ls, j + 1, a => l :: pushAt ls j a

/-- `probabilityIndex` of `manageOutput`. -/
def probabilityIndex : Nat := 5

/-- The rectangle built at lines 158-164 from row `i` of `output` for an image
of `cols` x `rows` pixels. -/
def rowRect [NatCast F] [Mul F] [Sub F] [Div F]
    (cols rows : Nat) (output : Mat F) (i : Nat) : Rect2d F :=
  let xCenter := output.at_ i 0 * (cols : F)
  let yCenter := output.at_ i 1 * (rows : F)
  let width := output.at_ i 2 * (cols : F)
  let height := output.at_ i 3 * (rows : F)
  let left := xCenter - width / ((2 : Nat) : F)
  let top := yCenter - height / ((2 : Nat) : F)
  { x := left, y := top, width := width, height := height }

/-- Body of the innermost loop (lines 155-167): class `j` of row `i`. -/
def decodeCell [NatCast F] [Mul F] [Sub F] [Div F] [LT F] [∀ a b : F, Decidable (a < b)]
    (m_confidence : F) (cols rows : Nat) (output : Mat F) (i : Nat)
    (st : Candidates F) (j : Nat) : Candidates F :=
  let confidence := output.at_ i (j + probabilityIndex)
  if confidence > m_confidence then
    { boxes := pushAt st.boxes j (rowRect cols rows output i),
      scores := pushAt st.scores j confidence }
  else st

/-- Loop `for(size_t j=0; j<nbClasses; ++j)` for one row. -/
def decodeRow [NatCast F] [Mul F] [Sub F] [Div F] [LT F] [∀ a b : F, Decidable (a < b)]
    (m_confidence : F) (cols rows nbClasses : Nat) (output : Mat F)
    (st : Candidates F) (i : Nat) : Candidates F :=
  (List.range nbClasses).foldl (decodeCell m_confidence cols rows output i) st

/-- Loop `for(int i=0; i<nbBoxes; ++i)` for one tensor. -/
def decodeMat [NatCast F] [Mul F] [Sub F] [Div F] [LT F] [∀ a b : F, Decidable (a < b)]
    (m_confidence : F) (cols rows nbClasses : Nat)
    (st : Candidates F) (output : Mat F) : Candidates F :=
  (List.range output.rows).foldl (decodeRow m_confidence cols rows nbClasses output) st

/-- Decoder, lines 137-170: `boxes` and `scores` are resized to `nbClasses`
empty lists and filled by the loop over `dnnOutputs`. -/
def decode [NatCast F] [Mul F] [Sub F] [Div F] [LT F] [∀ a b : F, Decidable (a < b)]
    (m_confidence : F) (cols rows nbClasses : Nat) (dnnOutputs : List (Mat F)) :
    Candidates F :=
  dnnOutputs.foldl (decodeMat m_confidence cols rows nbClasses)
    { boxes := List.replicate nbClasses [], scores := List.replicate nbClasses [] }

/-- Lines 173-174: `indices[i]` is what the suppressor returns for `boxes[i]`,
`scores[i]` and the two thresholds. -/
def applyNMS (NMSBoxes : Suppressor F) (m_confidence m_nmsThreshold : F)
    (nbClasses : Nat) (c : Candidates F) : List (List Nat) :=
  (List.range nbClasses).map fun i =>
    NMSBoxes (c.boxes.getD i []) (c.scores.getD i []) m_confidence m_nmsThreshold

/-- Inner loop of the merge (lines 179-185) for class `i`, started with the
running counter `id` and the objects `out` added so far.  Each step reads
`boxes[i][index]`, `scores[i][index]`, `m_classNames[i]` and `m_colors[i]`. -/
def mergeClass (m_classNames : List String) (m_colors : List CColor) (i : Nat)
    (boxes_i : List (Rect2d F)) (scores_i : List F) :
    List Nat → Nat × List (Detection F) → Option (Nat × List (Detection F))
  | [], st => some st
  | index :: rest, (id, out) => do
      let box ← boxes_i[index]?
      let confidence ← scores_i[index]?
      let name ← m_classNames[i]?
      let color ← m_colors[i]?
      mergeClass m_classNames m_colors i boxes_i scores_i rest
        (id + 1, out ++ [{ id := id, label := name, confidence := confidence,
                           x := box.x, y := box.y, width := box.width,
                           height := box.height, color := color }])

/-- Merge, lines 176-186: `int id = 0`, then classes in index order. -/
def mergeDetections (m_classNames : List String) (m_colors : List CColor)
    (boxes : List (List (Rect2d F))) (scores : List (List F))
    (indices : List (List Nat)) : Option (List (Detection F)) :=
  ((List.range m_classNames.length).foldlM
      (fun st i => mergeClass m_classNames m_colors i
        (boxes.getD i []) (scores.getD i []) (indices.getD i []) st)
      (0, [])).map Prod.snd

/-- `CYoloV4::manageOutput`: decode, suppress per class, merge.  The result is
the list of objects added to the detection output, or `none` when an
out-of-range element is read. -/
def manageOutput [NatCast F] [Mul F] [Sub F] [Div F] [LT F] [∀ a b : F, Decidable (a < b)]
    (NMSBoxes : Suppressor F) (m_classNames : List String) (m_colors : List CColor)
    (m_confidence m_nmsThreshold : F) (cols rows : Nat) (dnnOutputs : List (Mat F)) :
    Option (List (Detection F)) :=
  let nbClasses := m_classNames.length
  let c := decode m_confidence cols rows nbClasses dnnOutputs
  let indices := applyNMS NMSBoxes m_confidence m_nmsThreshold nbClasses c
  mergeDetections m_classNames m_colors c.boxes c.scores indices

end ManageOutput

/-! ## `CYoloV4::getNetworkInputSize` -/

/-- `CYoloV4::getNetworkInputSize`.  `m_inputSize` and `m_backend` are fields of
the parameter object, `m_bNewInput` and `m_sign` members of the base task;
`DNN_BACKEND_CUDA` is the OpenCV enumerator the backend is compared with. -/
def getNetworkInputSize (DNN_BACKEND_CUDA : Int) (m_inputSize m_backend : Int)
    (m_bNewInput : Bool) (m_sign : Int) : Int :=
  let size := m_inputSize
  if m_backend == DNN_BACKEND_CUDA && m_bNewInput then
    size + (m_sign * 32)
  else
    size

/-! ## `CYoloV4::generateColors` and `CYoloV4::run` -/

/-- `CoreExCode`, as far as this plugin uses it. -/
inductive CoreExCode where
  | INVALID_PARAMETER
deriving DecidableEq, Repr

/-- Exceptions that can leave the functions of the plugin. -/
inductive Exn where
  /-- The host's `CException(code, message, ...)`. -/
  | CException (code : CoreExCode) (what : String)
  /-- `cv::Exception`. -/
  | cvException (what : String)
  /-- `std::invalid_argument`. -/
  | invalid_argument
  /-- `std::out_of_range`. -/
  | out_of_range
  /-- Any other exception raised by a collaborator. -/
  | other (what : String)
deriving DecidableEq, Repr

/-- The network `cv::dnn::Net`, as far as `run` inspects it: `empty()`. -/
structure Net where
  empty : Bool
deriving DecidableEq, Repr

/-- The members of the task (and of its parameter object) that `run` reads or
writes. -/
structure CYoloV4 (F : Type) where
  m_net : Net
  m_classNames : List String
  m_colors : List CColor
  m_bUpdate : Bool
  m_confidence : F
  m_nmsThreshold : F

/-- What one call of `run` receives from outside the plugin. -/
structure RunEnv (F : Type) where
  /-- `pInput != nullptr && pParam != nullptr`. -/
  hasInput : Bool
  /-- `pInput->isDataAvailable()`. -/
  dataAvailable : Bool
  /-- `imgOrigin.channels()`. -/
  channels : Nat
  /-- Outcome of `cv::cvtColor(imgOrigin, imgSrc, cv::COLOR_GRAY2RGB)`. -/
  cvtColor : Except Exn Unit
  /-- `imgSrc.cols`. -/
  cols : Nat
  /-- `imgSrc.rows`. -/
  rows : Nat
  /-- Outcome of `readDnn()`. -/
  readDnn : Except Exn Net
  /-- Outcome of `readClassNames()`: the names it leaves in `m_classNames`. -/
  readClassNames : Except Exn (List String)
  /-- Successive results of `std::rand()`. -/
  rand : Nat → Nat
  /-- The constant `RAND_MAX`. -/
  RAND_MAX : Nat
  /-- Outcome of `forward(imgSrc, netOutputs)`: the tensors in `netOutputs`. -/
  forward : Except Exn (List (Mat F))
  /-- The suppressor `cv::dnn::NMSBoxes`. -/
  NMSBoxes : Suppressor F

/-- One channel `(uchar)((double)std::rand() / (double)RAND_MAX * 255.0)`: the
quotient scaled to `0 .. 255` and truncated. -/
def colorChannel (RAND_MAX r : Nat) : Nat := r * 255 / RAND_MAX

/-- `CYoloV4::generateColors`: for each class name one colour is pushed onto
`m_colors`, drawing three values from `std::rand()`. -/
def generateColors (rand : Nat → Nat) (RAND_MAX : Nat) (m_classNames : List String)
    (m_colors : List CColor) : List CColor :=
  (List.range m_classNames.length).foldl
    (fun colors i => colors ++ [{ r := colorChannel RAND_MAX (rand (3 * i)),
                                  g := colorChannel RAND_MAX (rand (3 * i + 1)),
                                  b := colorChannel RAND_MAX (rand (3 * i + 2)) }])
    m_colors

section Run
variable {F : Type}

/-- The `try` block of `run` (lines 103-115): reload when the network is empty
or the parameters changed, then `forward`.  Returns the members after the
block and either the tensors or the exception that left the block. -/
def reloadAndForward (s : CYoloV4 F) (env : RunEnv F) :
    CYoloV4 F × Except Exn (List (Mat F)) :=
  if s.m_net.empty || s.m_bUpdate then
    match env.readDnn with
    | .error e => (s, .error e)
    | .ok net =>
      let s₁ := { s with m_net := net }
      if s₁.m_net.empty then
        (s₁, .error (.CException .INVALID_PARAMETER "Failed to load network"))
      else
        let names : Except Exn (List String) :=
          if s₁.m_classNames.isEmpty then env.readClassNames else .ok s₁.m_classNames
        match names with
        | .error e => (s₁, .error e)
        | .ok classNames =>
          let s₂ := { s₁ with m_classNames := classNames }
          let s₃ := { s₂ with
            m_colors := generateColors env.rand env.RAND_MAX s₂.m_classNames s₂.m_colors }
          let s₄ := { s₃ with m_bUpdate := false }
          (s₄, env.forward)
  else
    (s, env.forward)

/-- `CYoloV4::run`.  Returns the members after the call and either the objects
written by `manageOutput` (`none`: an out-of-range read there) or the
exception that left `run`. -/
def run [NatCast F] [Mul F] [Sub F] [Div F] [LT F] [∀ a b : F, Decidable (a < b)]
    (s : CYoloV4 F) (env : RunEnv F) :
    CYoloV4 F × Except Exn (Option (List (Detection F))) :=
  if !env.hasInput then
    (s, .error (.CException .INVALID_PARAMETER "Invalid parameters"))
  else if !env.dataAvailable then
    (s, .error (.CException .INVALID_PARAMETER "Empty image"))
  else
    match (if env.channels < 3 then env.cvtColor else .ok ()) with
    | .error e => (s, .error e)
    | .ok _ =>
      match reloadAndForward s env with
      | (s', .error (.cvException what)) =>
        (s', .error (.CException .INVALID_PARAMETER what))
      | (s', .error e) => (s', .error e)
      | (s', .ok netOutputs) =>
        (s', .ok (manageOutput env.NMSBoxes s'.m_classNames s'.m_colors
                    s'.m_confidence s'.m_nmsThreshold env.cols env.rows netOutputs))

/-- The run reaches the reload: the input checks pass and the network is empty
or the parameters-changed flag is set. -/
def reloadAttempted (s : CYoloV4 F) (env : RunEnv F) : Bool :=
  env.hasInput && env.dataAvailable &&
    (if env.channels < 3 then env.cvtColor.toBool else true) &&
    (s.m_net.empty || s.m_bUpdate)

/-- The reload fails at `readDnn`: it raises, or returns an empty network. -/
def readDnnFails (env : RunEnv F) : Bool :=
  match env.readDnn with
  | .error _ => true
  | .ok net => net.empty

end Run

/-! ## Configuration: `CYoloV4Param::setParamMap` / `getParamMap` -/

/-- Values of a C++ `double`: a finite value (given exactly, as a rational),
an infinity or a NaN.  The sign of zero is not recorded. -/
inductive Double where
  | finite (q : ℚ)
  | inf (negative : Bool)
  | nan
deriving DecidableEq

/-- Rounding to the nearest integer, ties to the even one. -/
def roundHalfEven (x : ℚ) : ℤ :=
  let f := ⌊x⌋
  let r := x - f
  if r < 1 / 2 then f
  else if 1 / 2 < r then f + 1
  else if f % 2 = 0 then f else f + 1

/-- Bisection for the binary exponent of `x`: keeps `lo` below and `hi` above
the largest `e` with `2 ^ e ≤ |x|`. -/
def exponentSearch (x : ℚ) : Nat → ℤ → ℤ → ℤ
  | 0, lo, _ => lo
  | fuel + 1, lo, hi =>
    let mid := (lo + hi) / 2
    if (2 : ℚ) ^ mid ≤ |x| then exponentSearch x fuel mid hi
    else exponentSearch x fuel lo mid

/-- The binary exponent of `x` within the exponent range of binary64: the
largest `e` in `[-1022, 1025]` with `2 ^ e ≤ |x|`, and `-1022` when there is
none (subnormal range). -/
def binade (x : ℚ) : ℤ := exponentSearch x 12 (-1022) 1026

/-- The binary64 value nearest to `x` (ties to even): 53 significant bits
above the subnormal range, multiples of `2 ^ -1074` within it.  Overflow is
detected by the caller. -/
def roundToDouble (x : ℚ) : ℚ :=
  if x = 0 then 0
  else
    let e := binade x
    let ulp : ℚ := (2 : ℚ) ^ (e - 52)
    (roundHalfEven (x / ulp) : ℚ) * ulp

/-- The binary exponent of `x` within the exponent range of binary32. -/
def binade32 (x : ℚ) : ℤ := exponentSearch x 9 (-126) 130

/-- The binary32 value nearest to `x` (ties to even); overflow is not
modelled. -/
def roundToFloat (x : ℚ) : ℚ :=
  if x = 0 then 0
  else
    let e := binade32 x
    let ulp : ℚ := (2 : ℚ) ^ (e - 23)
    (roundHalfEven (x / ulp) : ℚ) * ulp

/-- Finite values of the C++ type `float` with its rounded arithmetic: every
operation returns the binary32 value nearest to the exact result.  Infinities
and NaN are outside this type. -/
structure Float32 where
  val : ℚ
deriving DecidableEq

/-- The `float` nearest to the rational `q`. -/
def Float32.ofRat (q : ℚ) : Float32 := ⟨roundToFloat q⟩

instance : Zero Float32 := ⟨⟨0⟩⟩

instance : NatCast Float32 := ⟨fun n => Float32.ofRat n⟩

instance : Mul Float32 := ⟨fun a b => Float32.ofRat (a.val * b.val)⟩

instance : Sub Float32 := ⟨fun a b => Float32.ofRat (a.val - b.val)⟩

instance : Div Float32 := ⟨fun a b => Float32.ofRat (a.val / b.val)⟩

instance : LT Float32 := ⟨fun a b => a.val < b.val⟩

instance (a b : Float32) : Decidable (a < b) := inferInstanceAs (Decidable (a.val < b.val))

/-- The decimal digit `d` as a character. -/
def digitChar (d : Nat) : Char := Char.ofNat (48 + d)

/-- The six digits that `%f` prints after the point for `m` millionths. -/
def fracDigits (m : Nat) : List Char :=
  [digitChar (m / 100000 % 10), digitChar (m / 10000 % 10), digitChar (m / 1000 % 10),
   digitChar (m / 100 % 10), digitChar (m / 10 % 10), digitChar (m % 10)]

/-- `std::to_string(double)`, i.e. `printf("%f")`: the value rounded to six
decimals (exactly, ties to even), printed as sign, integer part, point and six
digits. -/
def to_string : Double → String
  | .finite q =>
    let n : Nat := (roundHalfEven (|q| * 1000000)).toNat
    String.mk ((if q < 0 then ['-'] else []) ++
      ((Nat.repr (n / 1000000)).toList ++ '.' :: fracDigits (n % 1000000)))
  | .inf negative => if negative then "-inf" else "inf"
  | .nan => "nan"

/-- `isspace` in the C locale. -/
def isSpace (c : Char) : Bool :=
  c.toNat = 32 || (9 ≤ c.toNat && c.toNat ≤ 13)

/-- Value of a sequence of decimal digits. -/
def digitsValue (ds : List Char) : Nat :=
  ds.foldl (fun acc c => 10 * acc + (c.toNat - 48)) 0

/-- Value of a hexadecimal digit. -/
def hexDigit (c : Char) : Option Nat :=
  if c.isDigit then some (c.toNat - 48)
  else if 97 ≤ c.toNat ∧ c.toNat ≤ 102 then some (c.toNat - 87)
  else if 65 ≤ c.toNat ∧ c.toNat ≤ 70 then some (c.toNat - 55)
  else none

/-- Value of a sequence of hexadecimal digits. -/
def hexValue (ds : List Char) : Nat :=
  ds.foldl (fun acc c => 16 * acc + (hexDigit c).getD 0) 0

/-- An exponent part after its letter: optional sign and at least one decimal
digit; without a digit there is no exponent part and the value is `0`. -/
def parseExponent (cs : List Char) : ℤ :=
  match cs with
  | '-' :: t => -((digitsValue (t.takeWhile Char.isDigit) : Nat) : ℤ)
  | '+' :: t => ((digitsValue (t.takeWhile Char.isDigit) : Nat) : ℤ)
  | t => ((digitsValue (t.takeWhile Char.isDigit) : Nat) : ℤ)

/-- The decimal form of `strtod`: digits with an optional point, at least one
digit, then an optional exponent part.  Returns the exact value of the longest
such prefix, `none` when there is none. -/
def parseDecimal (cs : List Char) : Option ℚ :=
  let ip := cs.takeWhile Char.isDigit
  let r₁ := cs.dropWhile Char.isDigit
  let fp := match r₁ with
    | '.' :: t => t.takeWhile Char.isDigit
    | _ => []
  let r₂ := match r₁ with
    | '.' :: t => t.dropWhile Char.isDigit
    | _ => r₁
  if ip.isEmpty && fp.isEmpty then none
  else
    let mant : ℚ := (digitsValue (ip ++ fp) : ℚ) / (10 : ℚ) ^ fp.length
    let e : ℤ := match r₂ with
      | c :: t => if c = 'e' ∨ c = 'E' then parseExponent t else 0
      | [] => 0
    some (mant * (10 : ℚ) ^ e)

/-- The hexadecimal form of `strtod`, after the prefix `0x`: hexadecimal digits
with an optional point, at least one digit, then an optional binary exponent
part `p`. -/
def parseHex (cs : List Char) : Option ℚ :=
  let isHex := fun c => (hexDigit c).isSome
  let ip := cs.takeWhile isHex
  let r₁ := cs.dropWhile isHex
  let fp := match r₁ with
    | '.' :: t => t.takeWhile isHex
    | _ => []
  let r₂ := match r₁ with
    | '.' :: t => t.dropWhile isHex
    | _ => r₁
  if ip.isEmpty && fp.isEmpty then none
  else
    let mant : ℚ := (hexValue (ip ++ fp) : ℚ) / (16 : ℚ) ^ fp.length
    let e : ℤ := match r₂ with
      | c :: t => if c = 'p' ∨ c = 'P' then parseExponent t else 0
      | [] => 0
    some (mant * (2 : ℚ) ^ e)

/-- The subject sequence of `strtod` after white space and sign: `inf`,
`nan`, a hexadecimal or a decimal number.  `none`: no conversion. -/
def parseUnsigned (cs : List Char) : Option (Option ℚ ⊕ Unit) :=
  let low := (cs.take 3).map Char.toLower
  if low = ['i', 'n', 'f'] then some (.inl none)
  else if low = ['n', 'a', 'n'] then some (.inr ())
  else
    let hex : Option ℚ := match cs with
      | '0' :: x :: t => if x = 'x' ∨ x = 'X' then parseHex t else none
      | _ => none
    match hex with
    | some v => some (.inl (some v))
    | none => (parseDecimal cs).map fun v => .inl (some v)

/-- End of `strtod`: the exact value `x` read is rounded to the nearest
`double`; a range error is reported on overflow and on an inexact result
below the normal range (the C standard leaves the report of underflow to the
implementation). -/
def toDoubleChecked (x : ℚ) : Except Exn Double :=
  let r := roundToDouble x
  if (2 : ℚ) ^ (1024 : ℕ) ≤ |r| then .error .out_of_range
  else if x ≠ 0 ∧ |x| < (2 : ℚ) ^ (-1022 : ℤ) ∧ r ≠ x then .error .out_of_range
  else .ok (.finite r)

/-- `std::stod(str)`: `strtod` on the characters of `str`; throws
`std::invalid_argument` when no conversion can be performed and
`std::out_of_range` when `strtod` reports a range error.  Characters after
the number are ignored. -/
def stod (str : String) : Except Exn Double :=
  let cs := str.toList.dropWhile isSpace
  let negative := match cs with
    | '-' :: _ => true
    | _ => false
  let body := match cs with
    | '-' :: t => t
    | '+' :: t => t
    | t => t
  match parseUnsigned body with
  | none => .error .invalid_argument
  | some (.inr ()) => .ok .nan
  | some (.inl none) => .ok (.inf negative)
  | some (.inl (some v)) => toDoubleChecked (if negative then -v else v)

/-- `UMapString`: `std::unordered_map<std::string, std::string>`. -/
abbrev UMapString := List (String × String)

/-- `paramMap.at(key)`: throws `std::out_of_range` for a missing key. -/
def UMapString.at_ (paramMap : UMapString) (key : String) : Except Exn String :=
  match paramMap.lookup key with
  | some v => .ok v
  | none => .error .out_of_range

/-- `paramMap.insert(std::make_pair(key, value))`: no effect when the key is
already present. -/
def UMapString.insert (paramMap : UMapString) (key value : String) : UMapString :=
  match paramMap.lookup key with
  | some _ => paramMap
  | none => paramMap ++ [(key, value)]

/-- The two functions of the base class `COcvDnnProcessParam` that the
parameter class calls, on a base state `B`. -/
structure BaseParamOps (B : Type) where
  /-- `COcvDnnProcessParam::setParamMap`: the base state afterwards and the
  exception, if one is thrown. -/
  setParamMap : B → UMapString → B × Except Exn Unit
  /-- `COcvDnnProcessParam::getParamMap`. -/
  getParamMap : B → UMapString

/-- `CYoloV4Param`: the base part and the two thresholds. -/
structure CYoloV4Param (B : Type) where
  base : B
  m_confidence : Double
  m_nmsThreshold : Double

/-- `CYoloV4Param::setParamMap`.  Returns the object afterwards (assignments
made before an exception persist) and the exception, if one is thrown. -/
def CYoloV4Param.setParamMap {B : Type} (ops : BaseParamOps B) (p : CYoloV4Param B)
    (paramMap : UMapString) : CYoloV4Param B × Except Exn Unit :=
  match ops.setParamMap p.base paramMap with
  | (b, .error e) => ({ p with base := b }, .error e)
  | (b, .ok _) =>
    let p₁ := { p with base := b }
    match (paramMap.at_ "confidence").bind stod with
    | .error e => (p₁, .error e)
    | .ok c =>
      let p₂ := { p₁ with m_confidence := c }
      match (paramMap.at_ "nmsThreshold").bind stod with
      | .error e => (p₂, .error e)
      | .ok n => ({ p₂ with m_nmsThreshold := n }, .ok ())

/-- `CYoloV4Param::getParamMap`. -/
def CYoloV4Param.getParamMap {B : Type} (ops : BaseParamOps B) (p : CYoloV4Param B) :
    UMapString :=
  let paramMap := ops.getParamMap p.base
  let paramMap := paramMap.insert "confidence" (to_string p.m_confidence)
  let paramMap := paramMap.insert "nmsThreshold" (to_string p.m_nmsThreshold)
  paramMap

/-- A base class without keys of its own whose `setParamMap` always succeeds. -/
def plainBase : BaseParamOps Unit :=
  { setParamMap := fun b _ => (b, .ok ()), getParamMap := fun _ => [] }

/-- The value `q` rounded to six decimals, ties to even: what `%f` prints. -/
def sixDecimals (q : ℚ) : ℚ := (roundHalfEven (q * 1000000) : ℚ) / 1000000

/-- The characters start a decimal number: a digit, or a point followed by a
digit. -/
def leadsDecimal : List Char → Bool
  | c :: d :: _ => c.isDigit || (c == '.' && d.isDigit)
  | [c] => c.isDigit
  | [] => false

/-- The text holds no number for `strtod`: after white space and one optional
sign it does not continue with `inf` or `nan` (in any case of letters), nor
with a digit, nor with a point followed by a digit. -/
def noLeadingNumber (str : String) : Bool :=
  let cs := str.toList.dropWhile isSpace
  let body := match cs with
    | '-' :: t => t
    | '+' :: t => t
    | t => t
  let low := (body.take 3).map Char.toLower
  !(low == ['i', 'n', 'f'] || low == ['n', 'a', 'n'] || leadsDecimal body)

/-- A parameter record whose confidence `2^-21` has more than six decimals. -/
def fineParam : CYoloV4Param Unit :=
  { base := (), m_confidence := .finite (1 / 2 ^ 21), m_nmsThreshold := .finite (1 / 4) }

/-- A parameter record with the default thresholds `0.5` and `0.4` as doubles. -/
def defaultParam : CYoloV4Param Unit :=
  { base := (), m_confidence := .finite (1 / 2),
    m_nmsThreshold := .finite (roundToDouble (2 / 5)) }

/-! ## Specification-side definitions -/

section DecodeSpec
variable {F : Type}

/-- Every row of every tensor as a pair (tensor, row index): tensors in list
order, rows of one tensor in index order. -/
def allRows (dnnOutputs : List (Mat F)) : List (Mat F × Nat) :=
  dnnOutputs.flatMap fun output => (List.range output.rows).map fun i => (output, i)

/-- The rows that qualify for class `j`: those whose value at column `5 + j`
is strictly greater than the threshold, in the order of `allRows`. -/
def qualifyingRows [LT F] [∀ a b : F, Decidable (a < b)]
    (t : F) (j : Nat) (dnnOutputs : List (Mat F)) : List (Mat F × Nat) :=
  (allRows dnnOutputs).filter fun r => decide (r.1.at_ r.2 (5 + j) > t)

end DecodeSpec

section MergeSpec
variable {F : Type}

/-- The candidates of class `i` selected by the surviving indices `idx`, in the
order of `idx`; each carries `classNames[i]`, the candidate's score and rect
and the class colour, and still awaits its id. -/
def selectedOfClass (classNames : List String) (colors : List CColor) (i : Nat)
    (boxes_i : List (Rect2d F)) (scores_i : List F) (idx : List Nat) :
    List (Nat → Detection F) :=
  idx.filterMap fun k => do
    let box ← boxes_i[k]?
    let score ← scores_i[k]?
    let name ← classNames[i]?
    let color ← colors[i]?
    pure fun id =>
      { id := id, label := name, confidence := score, x := box.x, y := box.y,
        width := box.width, height := box.height, color := color }

/-- Gives the element at position `k` of a list the id `start + k`. -/
def assignIds (start : Nat) (l : List (Nat → Detection F)) : List (Detection F) :=
  (l.enumFrom start).map fun p => p.2 p.1

/-- Merge as the specification words it: the concatenation over the classes
`0 .. numClasses-1` of the selected candidates, the detection at position `k`
receiving id `k`. -/
def mergeSpec (classNames : List String) (colors : List CColor)
    (boxes : List (List (Rect2d F))) (scores : List (List F))
    (indices : List (List Nat)) : List (Detection F) :=
  assignIds 0 ((List.range classNames.length).flatMap fun i =>
    selectedOfClass classNames colors i (boxes.getD i []) (scores.getD i []) (indices.getD i []))

/-- What a detection carries apart from its id. -/
def Detection.body (d : Detection F) : String × F × Rect2d F × CColor :=
  (d.label, d.confidence, ⟨d.x, d.y, d.width, d.height⟩, d.color)

/-- The suppressor returns only indices of its input lists. -/
def Suppressor.Valid (NMSBoxes : Suppressor F) : Prop :=
  ∀ bs ss a b, ∀ k ∈ NMSBoxes bs ss a b, k < bs.length ∧ k < ss.length

end MergeSpec

section Invariant
variable {F : Type}

/-- Both per-class vectors keep the size given by `resize(nbClasses)`. -/
def Sized (n : Nat) (s : Candidates F) : Prop :=
  s.boxes.length = n ∧ s.scores.length = n

end Invariant

/-- The tensor of the decoding scenario: one row `[0.5,0.5,0.2,0.2,0,0.9,0.1]`. -/
def scenarioTensor : Mat ℚ := Mat.ofRows [[0.5, 0.5, 0.2, 0.2, 0, 0.9, 0.1]]

/-- The scenario tensor as the network delivers it: the `float` nearest to
each decimal. -/
def scenarioTensor32 : Mat Float32 :=
  Mat.ofRows [[.ofRat 0.5, .ofRat 0.5, .ofRat 0.2, .ofRat 0.2, 0, .ofRat 0.9, .ofRat 0.1]]

/-- A second tensor: one row that scores above 0.25 for class 1 only. -/
def otherTensor : Mat ℚ := Mat.ofRows [[0.1, 0.1, 0.1, 0.1, 0, 0.1, 0.8]]

/-- A suppressor that keeps every candidate, in input order. -/
def keepAll {F : Type} : Suppressor F :=
  fun bs ss _ _ => List.range (min bs.length ss.length)

/-- A task that has never loaded a network. -/
def freshTask : CYoloV4 ℚ :=
  { m_net := ⟨true⟩, m_classNames := [], m_colors := [], m_bUpdate := false,
    m_confidence := 0.5, m_nmsThreshold := 0.4 }

/-- A run in which every collaborator succeeds: a non-empty network, two class
names, `std::rand()` returning `7 k` at its `k`-th call, one output tensor. -/
def goodEnv : RunEnv ℚ :=
  { hasInput := true, dataAvailable := true, channels := 3, cvtColor := .ok (),
    cols := 100, rows := 100, readDnn := .ok ⟨false⟩,
    readClassNames := .ok ["cat", "dog"], rand := fun k => 7 * k, RAND_MAX := 2147483647,
    forward := .ok [scenarioTensor], NMSBoxes := keepAll }

/-- A run in which `readDnn` raises a `cv::Exception`. -/
def failingEnv : RunEnv ℚ :=
  { goodEnv with readDnn := .error (.cvException "cannot open file") }

/-! # Theorems -/

/-! ## Decoder -/

section Lemmas
variable {F : Type}

theorem length_pushAt {α : Type} (xs : List (List α)) (j : Nat) (a : α) :
    (pushAt xs j a).length = xs.length := by
  induction xs generalizing j with
  | nil => rfl
  | cons l ls ih => cases j <;> simp [pushAt, ih]

theorem getD_pushAt {α : Type} (xs : List (List α)) (j k : Nat) (a : α) (hj : j < xs.length) :
    (pushAt xs j a).getD k [] = xs.getD k [] ++ (if j = k then [a] else []) := by
  induction xs generalizing j k with
  | nil => simp at hj
  | cons l ls ih =>
    cases j with
    | zero => cases k <;> simp [pushAt]
    | succ j =>
      cases k with
      | zero => simp [pushAt]
      | succ k =>
        have := ih j k (by simpa using hj)
        simpa [pushAt] using this

/-- A left fold whose steps each append `g a` to a projection of the state
appends `l.flatMap g` overall; `I` is an invariant the steps may rely on. -/
theorem foldl_proj_flatMap {σ α β : Type} (step : σ → α → σ) (proj : σ → List β)
    (g : α → List β) (I : σ → Prop) (l : List α)
    (hI : ∀ s a, a ∈ l → I s → I (step s a))
    (h : ∀ s a, a ∈ l → I s → proj (step s a) = proj s ++ g a) (s : σ) (hs : I s) :
    I (l.foldl step s) ∧ proj (l.foldl step s) = proj s ++ l.flatMap g := by
  induction l generalizing s with
  | nil => simp [hs]
  | cons a l ih =>
    have hI' : ∀ s b, b ∈ l → I s → I (step s b) := fun s b hb => hI s b (List.mem_cons_of_mem _ hb)
    have h' : ∀ s b, b ∈ l → I s → proj (step s b) = proj s ++ g b :=
      fun s b hb => h s b (List.mem_cons_of_mem _ hb)
    have ha := h s a (List.mem_cons_self _ _) hs
    obtain ⟨i1, i2⟩ := ih hI' h' (step s a) (hI s a (List.mem_cons_self _ _) hs)
    refine ⟨by simpa using i1, ?_⟩
    simp only [List.foldl_cons, List.flatMap_cons]
    rw [i2, ha, List.append_assoc]

theorem flatMap_range_single {β : Type} (n k : Nat) (q : Nat → Bool) (r : Nat → List β) :
    (List.range n).flatMap (fun j => if j = k then (if q j then r j else []) else [])
      = if k < n then (if q k then r k else []) else [] := by
  induction n with
  | zero => simp
  | succ n ih =>
    rw [List.range_succ, List.flatMap_append, ih]
    by_cases h1 : k < n
    · have : n ≠ k := by omega
      simp [h1, this, Nat.lt_succ_of_lt h1]
    · by_cases h2 : n = k
      · subst h2; simp
      · have : ¬ k < n + 1 := by omega
        simp [h1, h2, this]

theorem flatMap_ite_singleton {α β : Type} (l : List α) (p : α → Bool) (f : α → β) :
    l.flatMap (fun a => if p a then [f a] else []) = (l.filter p).map f := by
  induction l with
  | nil => rfl
  | cons a l ih =>
    simp only [List.flatMap_cons, ih, List.filter_cons]
    by_cases h : p a <;> simp [h]

end Lemmas

section DecodeLemmas
variable {F : Type} [NatCast F] [Mul F] [Sub F] [Div F] [LT F] [∀ a b : F, Decidable (a < b)]

omit [NatCast F] [Mul F] [Sub F] [Div F] [LT F] [∀ a b : F, Decidable (a < b)] in
theorem sized_init (n : Nat) :
    Sized n ({ boxes := List.replicate n [], scores := List.replicate n [] } : Candidates F) := by
  simp [Sized]

theorem decodeCell_sized (t : F) (cols rows : Nat) (m : Mat F) (i n j : Nat)
    (s : Candidates F) (hs : Sized n s) : Sized n (decodeCell t cols rows m i s j) := by
  unfold decodeCell
  by_cases h : m.at_ i (j + probabilityIndex) > t
  · simp only [h, if_true]; exact ⟨by simp [length_pushAt, hs.1], by simp [length_pushAt, hs.2]⟩
  · simp only [h, if_false]; exact hs

theorem decodeCell_boxes (t : F) (cols rows : Nat) (m : Mat F) (i n j k : Nat)
    (s : Candidates F) (hs : Sized n s) (hj : j < n) :
    (decodeCell t cols rows m i s j).boxes.getD k []
      = s.boxes.getD k [] ++
        (if j = k then (if decide (m.at_ i (5 + j) > t) then [rowRect cols rows m i] else [])
         else []) := by
  unfold decodeCell
  rw [show j + probabilityIndex = 5 + j by simp [probabilityIndex, Nat.add_comm]]
  by_cases h : m.at_ i (5 + j) > t
  · simp only [h, if_true, decide_True]
    rw [getD_pushAt _ _ _ _ (by rw [hs.1]; exact hj)]
  · simp [h]

theorem decodeCell_scores (t : F) (cols rows : Nat) (m : Mat F) (i n j k : Nat)
    (s : Candidates F) (hs : Sized n s) (hj : j < n) :
    (decodeCell t cols rows m i s j).scores.getD k []
      = s.scores.getD k [] ++
        (if j = k then (if decide (m.at_ i (5 + j) > t) then [m.at_ i (5 + j)] else [])
         else []) := by
  unfold decodeCell
  rw [show j + probabilityIndex = 5 + j by simp [probabilityIndex, Nat.add_comm]]
  by_cases h : m.at_ i (5 + j) > t
  · simp only [h, if_true, decide_True]
    rw [getD_pushAt _ _ _ _ (by rw [hs.2]; exact hj)]
  · simp [h]

theorem decodeRow_spec (t : F) (cols rows n : Nat) (m : Mat F) (i k : Nat) (hk : k < n)
    (s : Candidates F) (hs : Sized n s) :
    Sized n (decodeRow t cols rows n m s i) ∧
    (decodeRow t cols rows n m s i).boxes.getD k []
      = s.boxes.getD k [] ++
        (if decide (m.at_ i (5 + k) > t) then [rowRect cols rows m i] else []) ∧
    (decodeRow t cols rows n m s i).scores.getD k []
      = s.scores.getD k [] ++
        (if decide (m.at_ i (5 + k) > t) then [m.at_ i (5 + k)] else []) := by
  have hb := foldl_proj_flatMap (decodeCell t cols rows m i) (fun s => s.boxes.getD k [])
    (fun j => if j = k then (if decide (m.at_ i (5 + j) > t) then [rowRect cols rows m i] else [])
      else []) (Sized n) (List.range n)
    (fun s j _ hs => decodeCell_sized t cols rows m i n j s hs)
    (fun s j hj hs => decodeCell_boxes t cols rows m i n j k s hs (List.mem_range.1 hj)) s hs
  have hsc := foldl_proj_flatMap (decodeCell t cols rows m i) (fun s => s.scores.getD k [])
    (fun j => if j = k then (if decide (m.at_ i (5 + j) > t) then [m.at_ i (5 + j)] else [])
      else []) (Sized n) (List.range n)
    (fun s j _ hs => decodeCell_sized t cols rows m i n j s hs)
    (fun s j hj hs => decodeCell_scores t cols rows m i n j k s hs (List.mem_range.1 hj)) s hs
  rw [flatMap_range_single n k (fun j => decide (m.at_ i (5 + j) > t))
    (fun _ => [rowRect cols rows m i])] at hb
  rw [flatMap_range_single n k (fun j => decide (m.at_ i (5 + j) > t))
    (fun j => [m.at_ i (5 + j)])] at hsc
  simp only [hk, if_true] at hb hsc
  exact ⟨hb.1, hb.2, hsc.2⟩

theorem decodeMat_spec (t : F) (cols rows n : Nat) (m : Mat F) (k : Nat) (hk : k < n)
    (s : Candidates F) (hs : Sized n s) :
    Sized n (decodeMat t cols rows n s m) ∧
    (decodeMat t cols rows n s m).boxes.getD k []
      = s.boxes.getD k [] ++ (List.range m.rows).flatMap (fun i =>
        if decide (m.at_ i (5 + k) > t) then [rowRect cols rows m i] else []) ∧
    (decodeMat t cols rows n s m).scores.getD k []
      = s.scores.getD k [] ++ (List.range m.rows).flatMap (fun i =>
        if decide (m.at_ i (5 + k) > t) then [m.at_ i (5 + k)] else []) := by
  have hb := foldl_proj_flatMap (decodeRow t cols rows n m) (fun s => s.boxes.getD k [])
    (fun i => if decide (m.at_ i (5 + k) > t) then [rowRect cols rows m i] else [])
    (Sized n) (List.range m.rows)
    (fun s i _ hs => (decodeRow_spec t cols rows n m i k hk s hs).1)
    (fun s i _ hs => (decodeRow_spec t cols rows n m i k hk s hs).2.1) s hs
  have hsc := foldl_proj_flatMap (decodeRow t cols rows n m) (fun s => s.scores.getD k [])
    (fun i => if decide (m.at_ i (5 + k) > t) then [m.at_ i (5 + k)] else [])
    (Sized n) (List.range m.rows)
    (fun s i _ hs => (decodeRow_spec t cols rows n m i k hk s hs).1)
    (fun s i _ hs => (decodeRow_spec t cols rows n m i k hk s hs).2.2) s hs
  exact ⟨hb.1, hb.2, hsc.2⟩

omit [NatCast F] [Mul F] [Sub F] [Div F] in
theorem qualifyingRows_map {β : Type} (t : F) (k : Nat) (outs : List (Mat F))
    (f : Mat F × Nat → β) :
    (qualifyingRows t k outs).map f
      = outs.flatMap (fun m => (List.range m.rows).flatMap (fun i =>
          if decide (m.at_ i (5 + k) > t) then [f (m, i)] else [])) := by
  unfold qualifyingRows allRows
  rw [← flatMap_ite_singleton, List.flatMap_assoc]
  congr 1
  funext m
  rw [List.flatMap_map]

theorem decode_spec (t : F) (cols rows n : Nat) (outs : List (Mat F)) (k : Nat) (hk : k < n) :
    Sized n (decode t cols rows n outs) ∧
    (decode t cols rows n outs).boxes.getD k []
      = (qualifyingRows t k outs).map (fun r => rowRect cols rows r.1 r.2) ∧
    (decode t cols rows n outs).scores.getD k []
      = (qualifyingRows t k outs).map (fun r => r.1.at_ r.2 (5 + k)) := by
  have hb := foldl_proj_flatMap (decodeMat t cols rows n) (fun s => s.boxes.getD k [])
    (fun m => (List.range m.rows).flatMap (fun i =>
        if decide (m.at_ i (5 + k) > t) then [rowRect cols rows m i] else []))
    (Sized n) outs
    (fun s m _ hs => (decodeMat_spec t cols rows n m k hk s hs).1)
    (fun s m _ hs => (decodeMat_spec t cols rows n m k hk s hs).2.1) _ (sized_init n)
  have hsc := foldl_proj_flatMap (decodeMat t cols rows n) (fun s => s.scores.getD k [])
    (fun m => (List.range m.rows).flatMap (fun i =>
        if decide (m.at_ i (5 + k) > t) then [m.at_ i (5 + k)] else []))
    (Sized n) outs
    (fun s m _ hs => (decodeMat_spec t cols rows n m k hk s hs).1)
    (fun s m _ hs => (decodeMat_spec t cols rows n m k hk s hs).2.2) _ (sized_init n)
  refine ⟨hb.1, ?_, ?_⟩
  · rw [qualifyingRows_map]
    have := hb.2
    simpa [decode, hk] using this
  · rw [qualifyingRows_map]
    have := hsc.2
    simpa [decode, hk] using this

end DecodeLemmas

/-! ## Merge -/

section MergeLemmas
variable {F : Type}

theorem assignIds_append (start : Nat) (l₁ l₂ : List (Nat → Detection F)) :
    assignIds start (l₁ ++ l₂) = assignIds start l₁ ++ assignIds (start + l₁.length) l₂ := by
  simp [assignIds, List.enumFrom_append]

theorem length_assignIds (start : Nat) (l : List (Nat → Detection F)) :
    (assignIds start l).length = l.length := by
  simp [assignIds]

theorem selectedOfClass_cons (classNames : List String) (colors : List CColor) (i : Nat)
    (bs : List (Rect2d F)) (ss : List F) (k : Nat) (idx : List Nat)
    (box : Rect2d F) (score : F) (name : String) (color : CColor)
    (hb : bs[k]? = some box) (hs : ss[k]? = some score)
    (hn : classNames[i]? = some name) (hc : colors[i]? = some color) :
    selectedOfClass classNames colors i bs ss (k :: idx)
      = (fun id => { id := id, label := name, confidence := score, x := box.x, y := box.y,
                     width := box.width, height := box.height, color := color })
        :: selectedOfClass classNames colors i bs ss idx := by
  simp [selectedOfClass, List.filterMap_cons, hb, hs, hn, hc]

theorem mergeClass_spec (classNames : List String) (colors : List CColor) (i : Nat)
    (bs : List (Rect2d F)) (ss : List F) (idx : List Nat)
    (hn : i < classNames.length) (hc : i < colors.length)
    (hv : ∀ k ∈ idx, k < bs.length ∧ k < ss.length) (id : Nat) (out : List (Detection F)) :
    mergeClass classNames colors i bs ss idx (id, out)
      = some (id + idx.length,
          out ++ assignIds id (selectedOfClass classNames colors i bs ss idx)) ∧
    (selectedOfClass classNames colors i bs ss idx).length = idx.length := by
  induction idx generalizing id out with
  | nil => simp [mergeClass, selectedOfClass, assignIds]
  | cons k idx ih =>
    obtain ⟨hkb, hks⟩ := hv k (List.mem_cons_self _ _)
    have hb : bs[k]? = some bs[k] := List.getElem?_eq_getElem hkb
    have hs : ss[k]? = some ss[k] := List.getElem?_eq_getElem hks
    have hn' : classNames[i]? = some classNames[i] := List.getElem?_eq_getElem hn
    have hc' : colors[i]? = some colors[i] := List.getElem?_eq_getElem hc
    have ih' := ih (fun k hk => hv k (List.mem_cons_of_mem _ hk))
    rw [selectedOfClass_cons classNames colors i bs ss k idx _ _ _ _ hb hs hn' hc']
    constructor
    · rw [mergeClass]
      simp only [hb, hs, hn', hc', Option.bind_eq_bind, Option.some_bind]
      rw [(ih' (id + 1) _).1]
      simp [assignIds, List.enumFrom_cons, Nat.add_assoc, Nat.add_comm 1]
    · simp [(ih' 0 []).2]

theorem mergeClass_nil (classNames : List String) (colors : List CColor) (i : Nat)
    (bs : List (Rect2d F)) (ss : List F) (st : Nat × List (Detection F)) :
    mergeClass classNames colors i bs ss [] st = some st := by
  simp [mergeClass]

end MergeLemmas

section MergeLemmas2
variable {F : Type}

theorem mergeLoop_spec (classNames : List String) (colors : List CColor)
    (boxes : List (List (Rect2d F))) (scores : List (List F)) (indices : List (List Nat))
    (l : List Nat)
    (hl : ∀ i ∈ l, i < classNames.length ∧ i < colors.length ∧
      ∀ k ∈ indices.getD i [], k < (boxes.getD i []).length ∧ k < (scores.getD i []).length)
    (id : Nat) (out : List (Detection F)) :
    l.foldlM (fun st i => mergeClass classNames colors i
        (boxes.getD i []) (scores.getD i []) (indices.getD i []) st) (id, out)
      = some (id + (l.map fun i => (indices.getD i []).length).sum,
          out ++ assignIds id (l.flatMap fun i => selectedOfClass classNames colors i
            (boxes.getD i []) (scores.getD i []) (indices.getD i []))) ∧
    (l.flatMap fun i => selectedOfClass classNames colors i
            (boxes.getD i []) (scores.getD i []) (indices.getD i [])).length
      = (l.map fun i => (indices.getD i []).length).sum := by
  induction l generalizing id out with
  | nil => simp [assignIds]
  | cons i l ih =>
    obtain ⟨hn, hc, hv⟩ := hl i (List.mem_cons_self _ _)
    have h1 := mergeClass_spec classNames colors i (boxes.getD i []) (scores.getD i [])
      (indices.getD i []) hn hc hv
    have ih' := ih (fun j hj => hl j (List.mem_cons_of_mem _ hj))
    constructor
    · rw [List.foldlM_cons, (h1 id out).1]
      simp only [Option.bind_eq_bind, Option.some_bind]
      rw [(ih' _ _).1, List.flatMap_cons, assignIds_append, (h1 id out).2]
      simp [Nat.add_assoc]
    · rw [List.flatMap_cons, List.length_append, (h1 0 []).2, (ih' 0 []).2]
      simp

theorem selectedOfClass_id (classNames : List String) (colors : List CColor) (i : Nat)
    (bs : List (Rect2d F)) (ss : List F) (idx : List Nat) :
    ∀ f ∈ selectedOfClass classNames colors i bs ss idx, ∀ id, (f id).id = id := by
  intro f hf id
  simp only [selectedOfClass, List.mem_filterMap] at hf
  obtain ⟨k, _, hk⟩ := hf
  cases hb : bs[k]? <;> simp [hb] at hk
  cases hs : ss[k]? <;> simp [hs] at hk
  cases hn : classNames[i]? <;> simp [hn] at hk
  cases hc : colors[i]? <;> simp [hc] at hk
  rw [← hk]

theorem assignIds_ids (start : Nat) (l : List (Nat → Detection F))
    (h : ∀ f ∈ l, ∀ id, (f id).id = id) :
    (assignIds start l).map (fun d => d.id) = List.range' start l.length := by
  induction l generalizing start with
  | nil => simp [assignIds]
  | cons f l ih =>
    have := ih (start + 1) (fun g hg => h g (List.mem_cons_of_mem _ hg))
    simp only [assignIds] at this
    simp [assignIds, List.enumFrom_cons, List.range'_succ, h f (List.mem_cons_self _ _), this]

theorem mergeDetections_eq_spec (classNames : List String) (colors : List CColor)
    (boxes : List (List (Rect2d F))) (scores : List (List F)) (indices : List (List Nat))
    (hc : classNames.length ≤ colors.length)
    (hv : ∀ i, i < classNames.length → ∀ k ∈ indices.getD i [],
      k < (boxes.getD i []).length ∧ k < (scores.getD i []).length) :
    mergeDetections classNames colors boxes scores indices
      = some (mergeSpec classNames colors boxes scores indices) ∧
    (mergeSpec classNames colors boxes scores indices).length
      = ((List.range classNames.length).map fun i => (indices.getD i []).length).sum ∧
    (mergeSpec classNames colors boxes scores indices).map (fun d => d.id)
      = List.range (mergeSpec classNames colors boxes scores indices).length := by
  have h := mergeLoop_spec classNames colors boxes scores indices (List.range classNames.length)
    (fun i hi => ⟨List.mem_range.1 hi, lt_of_lt_of_le (List.mem_range.1 hi) hc,
      hv i (List.mem_range.1 hi)⟩) 0 []
  refine ⟨?_, ?_, ?_⟩
  · rw [mergeDetections, h.1]
    simp [mergeSpec]
  · rw [mergeSpec, length_assignIds, h.2]
  · rw [mergeSpec, assignIds_ids, length_assignIds, ← List.range_eq_range']
    intro f hf
    obtain ⟨i, _, hi⟩ := List.mem_flatMap.1 hf
    exact selectedOfClass_id classNames colors i _ _ _ f hi

end MergeLemmas2

section MergeLemmas3
variable {F : Type}

theorem mergeDetections_of_no_index (classNames : List String) (colors : List CColor)
    (boxes : List (List (Rect2d F))) (scores : List (List F)) (indices : List (List Nat))
    (h : ∀ i, i < classNames.length → indices.getD i [] = []) :
    mergeDetections classNames colors boxes scores indices = some [] := by
  have key : ∀ (l : List Nat), (∀ i ∈ l, i < classNames.length) →
      ∀ st : Nat × List (Detection F),
      l.foldlM (fun st i => mergeClass classNames colors i
        (boxes.getD i []) (scores.getD i []) (indices.getD i []) st) st = some st := by
    intro l
    induction l with
    | nil => intro _ st; rfl
    | cons i l ih =>
      intro hl st
      rw [List.foldlM_cons, h i (hl i (List.mem_cons_self _ _)), mergeClass_nil]
      exact ih (fun j hj => hl j (List.mem_cons_of_mem _ hj)) st
  rw [mergeDetections, key _ (fun i hi => List.mem_range.1 hi)]
  rfl

theorem getD_applyNMS (NMSBoxes : Suppressor F) (t u : F) (n : Nat) (c : Candidates F)
    (i : Nat) (hi : i < n) :
    (applyNMS NMSBoxes t u n c).getD i []
      = NMSBoxes (c.boxes.getD i []) (c.scores.getD i []) t u := by
  simp [applyNMS, List.getD_eq_getElem?_getD, hi]

theorem body_assignIds (start : Nat) (l : List (Nat → Detection F))
    (h : ∀ f ∈ l, ∀ id, (f id).body = (f 0).body) :
    (assignIds start l).map Detection.body = l.map (fun f => (f 0).body) := by
  induction l generalizing start with
  | nil => simp [assignIds]
  | cons f l ih =>
    have := ih (start + 1) (fun g hg => h g (List.mem_cons_of_mem _ hg))
    simp only [assignIds] at this
    simp [assignIds, List.enumFrom_cons, h f (List.mem_cons_self _ _) start, this]

theorem selectedOfClass_body (classNames : List String) (colors : List CColor) (i : Nat)
    (bs : List (Rect2d F)) (ss : List F) (idx : List Nat) :
    ∀ f ∈ selectedOfClass classNames colors i bs ss idx, ∀ id, (f id).body = (f 0).body := by
  intro f hf id
  simp only [selectedOfClass, List.mem_filterMap] at hf
  obtain ⟨k, _, hk⟩ := hf
  cases hb : bs[k]? <;> simp [hb] at hk
  cases hs : ss[k]? <;> simp [hs] at hk
  cases hn : classNames[i]? <;> simp [hn] at hk
  cases hc : colors[i]? <;> simp [hc] at hk
  rw [← hk]
  rfl

theorem range_split (n i : Nat) (hi : i < n) :
    List.range n = List.range i ++ i :: List.range' (i + 1) (n - i - 1) := by
  rw [List.range_eq_range', List.range_eq_range']
  have h1 : n = (1 + (n - i - 1)) + i := by omega
  conv_lhs => rw [h1]
  rw [← List.range'_append_1, Nat.add_comm 1 (n - i - 1), List.range'_succ]
  simp

end MergeLemmas3

section ManageLemmas
variable {F : Type} [NatCast F] [Mul F] [Sub F] [Div F] [LT F] [∀ a b : F, Decidable (a < b)]

omit [NatCast F] [Mul F] [Sub F] [Div F] [LT F] [∀ a b : F, Decidable (a < b)] in
theorem assignIds_split (P S Q : List (Nat → Detection F)) :
    ∃ pre post, assignIds 0 (P ++ (S ++ Q)) = pre ++ assignIds pre.length S ++ post ∧
      pre.length = P.length :=
  ⟨assignIds 0 P, assignIds (P.length + S.length) Q,
    by simp [assignIds_append, length_assignIds], length_assignIds _ _⟩

omit [NatCast F] [Mul F] [Sub F] [Div F] [LT F] [∀ a b : F, Decidable (a < b)] in
theorem keepAll_valid : Suppressor.Valid (keepAll : Suppressor F) := by
  intro bs ss a b k hk
  simp only [keepAll, List.mem_range] at hk
  omega

theorem manageOutput_eq_spec (NMSBoxes : Suppressor F) (hnms : NMSBoxes.Valid)
    (classNames : List String) (colors : List CColor)
    (hc : classNames.length ≤ colors.length) (t u : F) (cols rows : Nat)
    (outs : List (Mat F)) :
    manageOutput NMSBoxes classNames colors t u cols rows outs
      = some (mergeSpec classNames colors
          (decode t cols rows classNames.length outs).boxes
          (decode t cols rows classNames.length outs).scores
          (applyNMS NMSBoxes t u classNames.length
            (decode t cols rows classNames.length outs))) := by
  unfold manageOutput
  refine (mergeDetections_eq_spec classNames colors _ _ _ hc ?_).1
  intro i hi k hk
  rw [getD_applyNMS _ _ _ _ _ _ hi] at hk
  exact hnms _ _ _ _ k hk

theorem manageOutput_split (NMSBoxes : Suppressor F) (hnms : NMSBoxes.Valid)
    (classNames : List String) (colors : List CColor)
    (hc : classNames.length ≤ colors.length) (t u : F) (cols rows : Nat)
    (outs : List (Mat F)) (i : Nat) (hi : i < classNames.length) :
    ∃ pre post : List (Detection F),
      manageOutput NMSBoxes classNames colors t u cols rows outs
        = some (pre ++ assignIds pre.length (selectedOfClass classNames colors i
            ((decode t cols rows classNames.length outs).boxes.getD i [])
            ((decode t cols rows classNames.length outs).scores.getD i [])
            (NMSBoxes ((decode t cols rows classNames.length outs).boxes.getD i [])
              ((decode t cols rows classNames.length outs).scores.getD i []) t u)) ++ post) ∧
      pre.length = ((List.range i).map fun c =>
        ((applyNMS NMSBoxes t u classNames.length
            (decode t cols rows classNames.length outs)).getD c []).length).sum := by
  have hv : ∀ c, c < classNames.length → ∀ k ∈ (applyNMS NMSBoxes t u classNames.length
      (decode t cols rows classNames.length outs)).getD c [],
      k < ((decode t cols rows classNames.length outs).boxes.getD c []).length ∧
      k < ((decode t cols rows classNames.length outs).scores.getD c []).length := by
    intro c hcl k hk
    rw [getD_applyNMS _ _ _ _ _ _ hcl] at hk
    exact hnms _ _ _ _ k hk
  have hpre := (mergeLoop_spec classNames colors
    (decode t cols rows classNames.length outs).boxes
    (decode t cols rows classNames.length outs).scores
    (applyNMS NMSBoxes t u classNames.length (decode t cols rows classNames.length outs))
    (List.range i)
    (fun c hcm => ⟨lt_trans (List.mem_range.1 hcm) hi,
      lt_of_lt_of_le (lt_trans (List.mem_range.1 hcm) hi) hc,
      hv c (lt_trans (List.mem_range.1 hcm) hi)⟩) 0 []).2
  rw [manageOutput_eq_spec NMSBoxes hnms classNames colors hc, mergeSpec,
    range_split classNames.length i hi, List.flatMap_append, List.flatMap_cons,
    getD_applyNMS _ _ _ _ _ _ hi]
  obtain ⟨pre, post, h1, h2⟩ := assignIds_split
    ((List.range i).flatMap fun c =>
      selectedOfClass classNames colors c
        ((decode t cols rows classNames.length outs).boxes.getD c [])
        ((decode t cols rows classNames.length outs).scores.getD c [])
        ((applyNMS NMSBoxes t u classNames.length
          (decode t cols rows classNames.length outs)).getD c []))
    (selectedOfClass classNames colors i
      ((decode t cols rows classNames.length outs).boxes.getD i [])
      ((decode t cols rows classNames.length outs).scores.getD i [])
      (NMSBoxes ((decode t cols rows classNames.length outs).boxes.getD i [])
        ((decode t cols rows classNames.length outs).scores.getD i []) t u))
    ((List.range' (i + 1) (classNames.length - i - 1)).flatMap fun c =>
      selectedOfClass classNames colors c
        ((decode t cols rows classNames.length outs).boxes.getD c [])
        ((decode t cols rows classNames.length outs).scores.getD c [])
        ((applyNMS NMSBoxes t u classNames.length
          (decode t cols rows classNames.length outs)).getD c []))
  exact ⟨pre, post, by rw [h1], by rw [h2, hpre]⟩

end ManageLemmas

/-! ## Claims about `manageOutput` -/

section Claims
variable {F : Type} [NatCast F] [Mul F] [Sub F] [Div F] [LT F] [∀ a b : F, Decidable (a < b)]

/-- C1 (decoder membership).  For every list of output tensors, class count
and threshold `t`, the candidate lists that `manageOutput` builds for a class
`j` (boxes and scores) hold exactly one entry per row whose value at column
`5 + j` is strictly greater than `t`, in tensor order then row order, and
nothing else.  A row is selected for class `j` iff that strict comparison
holds, independently of the other classes, so a row scoring above `t` in
several classes is selected for each of them, and a row whose score equals `t`
is not selected. -/
theorem decoder_membership [IsIrrefl F (fun a b => a < b)]
    (t : F) (cols rows nbClasses : Nat) (dnnOutputs : List (Mat F))
    (j : Nat) (hj : j < nbClasses) :
    (decode t cols rows nbClasses dnnOutputs).boxes.getD j []
        = (qualifyingRows t j dnnOutputs).map (fun r => rowRect cols rows r.1 r.2) ∧
    (decode t cols rows nbClasses dnnOutputs).scores.getD j []
        = (qualifyingRows t j dnnOutputs).map (fun r => r.1.at_ r.2 (5 + j)) ∧
    (∀ r, r ∈ qualifyingRows t j dnnOutputs ↔
        r ∈ allRows dnnOutputs ∧ r.1.at_ r.2 (5 + j) > t) ∧
    (∀ r ∈ allRows dnnOutputs, r.1.at_ r.2 (5 + j) = t →
        r ∉ qualifyingRows t j dnnOutputs) := by
  obtain ⟨_, hb, hs⟩ := decode_spec t cols rows nbClasses dnnOutputs j hj
  refine ⟨hb, hs, ?_, ?_⟩
  · intro r
    simp [qualifyingRows, List.mem_filter]
  · intro r _ hr hmem
    simp only [qualifyingRows, List.mem_filter, decide_eq_true_eq] at hmem
    have h2 : t < t := by
      have := hmem.2
      rw [hr] at this
      exact this
    exact irrefl (r := fun a b : F => a < b) t h2

/-- C2 (decoder geometry).  The candidate appended for a qualifying row
`(xc, yc, w, h, _, scores...)` and an image of `W x H` pixels has the rect
`(xc*W - (w*W)/2, yc*H - (h*H)/2, w*W, h*H)` and the class score read as its
score; in the scenario of one row `[0.5,0.5,0.2,0.2,0,0.9,0.1]`, two classes,
a 100x100 image and confidence 0.25, class 0 gets exactly the candidate
`(40,40,20,20)` with score 0.9 and class 1 gets none. -/
theorem decoder_geometry (t : F) (W H nbClasses : Nat) (dnnOutputs : List (Mat F))
    (j : Nat) (hj : j < nbClasses) :
    ((decode t W H nbClasses dnnOutputs).boxes.getD j []
        = (qualifyingRows t j dnnOutputs).map (fun r =>
            { x := r.1.at_ r.2 0 * (W : F) - (r.1.at_ r.2 2 * (W : F)) / ((2 : Nat) : F),
              y := r.1.at_ r.2 1 * (H : F) - (r.1.at_ r.2 3 * (H : F)) / ((2 : Nat) : F),
              width := r.1.at_ r.2 2 * (W : F),
              height := r.1.at_ r.2 3 * (H : F) }) ∧
     (decode t W H nbClasses dnnOutputs).scores.getD j []
        = (qualifyingRows t j dnnOutputs).map (fun r => r.1.at_ r.2 (5 + j))) ∧
    decode (0.25 : ℚ) 100 100 2 [scenarioTensor]
      = { boxes := [[{ x := 40, y := 40, width := 20, height := 20 }], []],
          scores := [[0.9], []] } := by
  obtain ⟨_, hb, hs⟩ := decode_spec t W H nbClasses dnnOutputs j hj
  refine ⟨⟨hb, hs⟩, ?_⟩
  decide!

/-- The decoding scenario in binary32 arithmetic: the products and the
difference round to exactly `40, 40, 20, 20`; the score is the `float` nearest
to 0.9. -/
theorem scenario_binary32 :
    decode (Float32.ofRat 0.25) 100 100 2 [scenarioTensor32]
      = { boxes := [[{ x := ⟨40⟩, y := ⟨40⟩, width := ⟨20⟩, height := ⟨20⟩ }], []],
          scores := [[.ofRat 0.9], []] } ∧
    Float32.ofRat 0.9 = ⟨15099494 / 16777216⟩ := by
  decide!

/-- Witness of C2: class 0 of the scenario tensor. -/
theorem decoder_geometry_witness :
    (0 < 2) ∧
    (decode (0.25 : ℚ) 100 100 2 [scenarioTensor]).boxes.getD 0 []
        = (qualifyingRows (0.25 : ℚ) 0 [scenarioTensor]).map (fun r =>
            { x := r.1.at_ r.2 0 * ((100 : Nat) : ℚ)
                  - (r.1.at_ r.2 2 * ((100 : Nat) : ℚ)) / ((2 : Nat) : ℚ),
              y := r.1.at_ r.2 1 * ((100 : Nat) : ℚ)
                  - (r.1.at_ r.2 3 * ((100 : Nat) : ℚ)) / ((2 : Nat) : ℚ),
              width := r.1.at_ r.2 2 * ((100 : Nat) : ℚ),
              height := r.1.at_ r.2 3 * ((100 : Nat) : ℚ) }) :=
  ⟨by decide, (decoder_geometry (0.25 : ℚ) 100 100 2 [scenarioTensor] 0 (by decide)).1.1⟩

/-- Witness of C1: class 0 of the two tensors of the scenarios. -/
theorem decoder_membership_witness :
    (0 < 2) ∧
    (decode (0.25 : ℚ) 100 100 2 [scenarioTensor, otherTensor]).scores.getD 0 []
        = (qualifyingRows (0.25 : ℚ) 0 [scenarioTensor, otherTensor]).map
            (fun r => r.1.at_ r.2 (5 + 0)) :=
  ⟨by decide,
    (decoder_membership (0.25 : ℚ) 100 100 2 [scenarioTensor, otherTensor] 0 (by decide)).2.1⟩

end Claims

section Claims2
variable {F : Type} [NatCast F] [Mul F] [Sub F] [Div F] [LT F] [∀ a b : F, Decidable (a < b)]

omit [NatCast F] [Mul F] [Sub F] [Div F] [LT F] [∀ a b : F, Decidable (a < b)] in
/-- C3 (merge order and ids).  For all per-class candidate lists and all
per-class lists of surviving indices, each index valid for its class (and a
colour table covering every class), the merge loop of `manageOutput` emits
exactly `mergeSpec`: the concatenation, for class `i = 0 .. numClasses-1` in
index order, of the candidates of class `i` selected by its surviving indices
in the order given, each with `classNames[i]`, that candidate's score and
rect.  The number of detections is the total number `N` of surviving indices,
and the detection at position `k` has id `k`: the ids are `0 .. N-1`. -/
theorem merge_order_and_ids (classNames : List String) (colors : List CColor)
    (boxes : List (List (Rect2d F))) (scores : List (List F)) (indices : List (List Nat))
    (hcolors : classNames.length ≤ colors.length)
    (hvalid : ∀ i, i < classNames.length → ∀ k ∈ indices.getD i [],
      k < (boxes.getD i []).length ∧ k < (scores.getD i []).length) :
    mergeDetections classNames colors boxes scores indices
      = some (mergeSpec classNames colors boxes scores indices) ∧
    (mergeSpec classNames colors boxes scores indices).length
      = ((List.range classNames.length).map fun i => (indices.getD i []).length).sum ∧
    (mergeSpec classNames colors boxes scores indices).map (fun d => d.id)
      = List.range (mergeSpec classNames colors boxes scores indices).length :=
  mergeDetections_eq_spec classNames colors boxes scores indices hcolors hvalid

/-- Witness of C3: two classes, survivors `[1, 0]` and `[0]`. -/
theorem merge_order_and_ids_witness :
    mergeDetections ["cat", "dog"] [⟨1, 2, 3⟩, ⟨4, 5, 6⟩]
        [[⟨0, 0, 10, 10⟩, ⟨20, 20, 5, 5⟩], [⟨1, 1, 2, 2⟩]] [[(0.8 : ℚ), 0.9], [0.7]]
        [[1, 0], [0]]
      = some [⟨0, "cat", 0.9, 20, 20, 5, 5, ⟨1, 2, 3⟩⟩, ⟨1, "cat", 0.8, 0, 0, 10, 10, ⟨1, 2, 3⟩⟩,
              ⟨2, "dog", 0.7, 1, 1, 2, 2, ⟨4, 5, 6⟩⟩] := by
  have h := (merge_order_and_ids ["cat", "dog"] [⟨1, 2, 3⟩, ⟨4, 5, 6⟩]
        [[⟨0, 0, 10, 10⟩, ⟨20, 20, 5, 5⟩], [⟨1, 1, 2, 2⟩]] [[(0.8 : ℚ), 0.9], [0.7]]
        [[1, 0], [0]] (by decide) (by decide)).1
  rw [h]
  decide!

/-- C4 (per-class independence of suppression).  Take two raw inputs decoded
with the same image size, thresholds and class names whose candidate lists
for class `i` coincide.  Then the surviving indices of class `i` are in both
runs the suppressor's result on class `i`'s boxes and scores and the two
thresholds, and the detections emitted for class `i` (the segment of the
output that follows the detections of the classes below `i`) agree in label,
score, rect, colour and order, whatever the other classes hold. -/
theorem per_class_independence (NMSBoxes : Suppressor F) (hnms : NMSBoxes.Valid)
    (classNames : List String) (colors : List CColor)
    (hcolors : classNames.length ≤ colors.length) (t u : F) (cols rows : Nat)
    (outs₁ outs₂ : List (Mat F)) (i : Nat) (hi : i < classNames.length)
    (hboxes : (decode t cols rows classNames.length outs₁).boxes.getD i []
      = (decode t cols rows classNames.length outs₂).boxes.getD i [])
    (hscores : (decode t cols rows classNames.length outs₁).scores.getD i []
      = (decode t cols rows classNames.length outs₂).scores.getD i []) :
    (applyNMS NMSBoxes t u classNames.length
        (decode t cols rows classNames.length outs₁)).getD i []
      = NMSBoxes ((decode t cols rows classNames.length outs₁).boxes.getD i [])
          ((decode t cols rows classNames.length outs₁).scores.getD i []) t u ∧
    (applyNMS NMSBoxes t u classNames.length
        (decode t cols rows classNames.length outs₂)).getD i []
      = NMSBoxes ((decode t cols rows classNames.length outs₁).boxes.getD i [])
          ((decode t cols rows classNames.length outs₁).scores.getD i []) t u ∧
    ∃ pre₁ seg₁ post₁ pre₂ seg₂ post₂ : List (Detection F),
      manageOutput NMSBoxes classNames colors t u cols rows outs₁
        = some (pre₁ ++ seg₁ ++ post₁) ∧
      manageOutput NMSBoxes classNames colors t u cols rows outs₂
        = some (pre₂ ++ seg₂ ++ post₂) ∧
      pre₁.length = ((List.range i).map fun c => ((applyNMS NMSBoxes t u classNames.length
        (decode t cols rows classNames.length outs₁)).getD c []).length).sum ∧
      pre₂.length = ((List.range i).map fun c => ((applyNMS NMSBoxes t u classNames.length
        (decode t cols rows classNames.length outs₂)).getD c []).length).sum ∧
      seg₁.length = ((applyNMS NMSBoxes t u classNames.length
        (decode t cols rows classNames.length outs₁)).getD i []).length ∧
      seg₂.length = ((applyNMS NMSBoxes t u classNames.length
        (decode t cols rows classNames.length outs₂)).getD i []).length ∧
      seg₁.map Detection.body = seg₂.map Detection.body := by
  obtain ⟨pre₁, post₁, h₁, l₁⟩ :=
    manageOutput_split NMSBoxes hnms classNames colors hcolors t u cols rows outs₁ i hi
  obtain ⟨pre₂, post₂, h₂, l₂⟩ :=
    manageOutput_split NMSBoxes hnms classNames colors hcolors t u cols rows outs₂ i hi
  have e₁ := getD_applyNMS NMSBoxes t u classNames.length
    (decode t cols rows classNames.length outs₁) i hi
  have e₂ := getD_applyNMS NMSBoxes t u classNames.length
    (decode t cols rows classNames.length outs₂) i hi
  rw [← hboxes, ← hscores] at h₂ e₂
  have hlen := (mergeClass_spec classNames colors i
    ((decode t cols rows classNames.length outs₁).boxes.getD i [])
    ((decode t cols rows classNames.length outs₁).scores.getD i [])
    (NMSBoxes ((decode t cols rows classNames.length outs₁).boxes.getD i [])
      ((decode t cols rows classNames.length outs₁).scores.getD i []) t u)
    hi (lt_of_lt_of_le hi hcolors) (fun k hk => hnms _ _ _ _ k hk) 0 []).2
  refine ⟨e₁, e₂, pre₁, _, post₁, pre₂, _, post₂, h₁, h₂, l₁, l₂, ?_, ?_, ?_⟩
  · rw [length_assignIds, hlen, e₁]
  · rw [length_assignIds, hlen, e₂]
  · rw [body_assignIds _ _ (selectedOfClass_body _ _ _ _ _ _),
      body_assignIds _ _ (selectedOfClass_body _ _ _ _ _ _)]

/-- C10 (empty results are valid).  When no row of any tensor has a class
score strictly above the threshold (in particular with no tensors, or with
tensors of zero rows) and the suppressor returns only indices of its input,
`manageOutput` completes, every class's candidate lists are empty and no
detection is emitted. -/
theorem empty_results (NMSBoxes : Suppressor F) (hnms : NMSBoxes.Valid)
    (classNames : List String) (colors : List CColor) (t u : F) (cols rows : Nat)
    (dnnOutputs : List (Mat F))
    (hnone : ∀ m ∈ dnnOutputs, ∀ i, i < m.rows → ∀ j, j < classNames.length →
      ¬ (m.at_ i (5 + j) > t)) :
    manageOutput NMSBoxes classNames colors t u cols rows dnnOutputs = some [] ∧
    ∀ j, j < classNames.length →
      (decode t cols rows classNames.length dnnOutputs).boxes.getD j [] = [] ∧
      (decode t cols rows classNames.length dnnOutputs).scores.getD j [] = [] := by
  have hq : ∀ j, j < classNames.length → qualifyingRows t j dnnOutputs = [] := by
    intro j hj
    rw [qualifyingRows, List.filter_eq_nil_iff]
    intro r hr
    simp only [allRows, List.mem_flatMap, List.mem_map, List.mem_range] at hr
    obtain ⟨m, hm, i, hi, rfl⟩ := hr
    simpa using hnone m hm i hi j hj
  have hempty : ∀ j, j < classNames.length →
      (decode t cols rows classNames.length dnnOutputs).boxes.getD j [] = [] ∧
      (decode t cols rows classNames.length dnnOutputs).scores.getD j [] = [] := by
    intro j hj
    obtain ⟨_, hb, hs⟩ := decode_spec t cols rows classNames.length dnnOutputs j hj
    rw [hb, hs, hq j hj]
    exact ⟨rfl, rfl⟩
  refine ⟨?_, hempty⟩
  unfold manageOutput
  apply mergeDetections_of_no_index
  intro i hi
  rw [getD_applyNMS _ _ _ _ _ _ hi, (hempty i hi).1, (hempty i hi).2]
  apply List.eq_nil_iff_forall_not_mem.2
  intro k hk
  have := (hnms _ _ _ _ k hk).1
  simp at this


/-- Witness of C4: class 1 has the same candidates in both inputs, class 0 has
none in the first and one in the second. -/
theorem per_class_independence_witness :
    ∃ pre₁ seg₁ post₁ pre₂ seg₂ post₂ : List (Detection ℚ),
      manageOutput keepAll ["cat", "dog"] [⟨1, 2, 3⟩, ⟨4, 5, 6⟩] (0.25 : ℚ) 0.4 100 100
        [otherTensor] = some (pre₁ ++ seg₁ ++ post₁) ∧
      manageOutput keepAll ["cat", "dog"] [⟨1, 2, 3⟩, ⟨4, 5, 6⟩] (0.25 : ℚ) 0.4 100 100
        [scenarioTensor, otherTensor] = some (pre₂ ++ seg₂ ++ post₂) ∧
      pre₁.length = ((List.range 1).map fun c => ((applyNMS keepAll (0.25 : ℚ) 0.4
        ["cat", "dog"].length (decode (0.25 : ℚ) 100 100 ["cat", "dog"].length
          [otherTensor])).getD c []).length).sum ∧
      pre₂.length = ((List.range 1).map fun c => ((applyNMS keepAll (0.25 : ℚ) 0.4
        ["cat", "dog"].length (decode (0.25 : ℚ) 100 100 ["cat", "dog"].length
          [scenarioTensor, otherTensor])).getD c []).length).sum ∧
      seg₁.length = ((applyNMS keepAll (0.25 : ℚ) 0.4 ["cat", "dog"].length
        (decode (0.25 : ℚ) 100 100 ["cat", "dog"].length [otherTensor])).getD 1 []).length ∧
      seg₂.length = ((applyNMS keepAll (0.25 : ℚ) 0.4 ["cat", "dog"].length
        (decode (0.25 : ℚ) 100 100 ["cat", "dog"].length
          [scenarioTensor, otherTensor])).getD 1 []).length ∧
      seg₁.map Detection.body = seg₂.map Detection.body :=
  (per_class_independence keepAll keepAll_valid ["cat", "dog"] [⟨1, 2, 3⟩, ⟨4, 5, 6⟩]
    (by decide) (0.25 : ℚ) 0.4 100 100 [otherTensor] [scenarioTensor, otherTensor] 1
    (by decide) (by decide!) (by decide!)).2.2

/-- Witness of C10: one tensor without rows. -/
theorem empty_results_witness :
    manageOutput keepAll ["cat", "dog"] [] (0.25 : ℚ) 0.4 100 100 [Mat.ofRows []] = some [] :=
  (empty_results keepAll keepAll_valid ["cat", "dog"] [] (0.25 : ℚ) 0.4 100 100
    [Mat.ofRows []] (by simp [Mat.ofRows])).1

end Claims2


/-! ## Reload state machine -/

section RunClaims
variable {F : Type} [NatCast F] [Mul F] [Sub F] [Div F] [LT F] [∀ a b : F, Decidable (a < b)]

theorem length_generateColors (rand : Nat → Nat) (M : Nat) (names : List String)
    (colors : List CColor) :
    (generateColors rand M names colors).length = colors.length + names.length := by
  unfold generateColors
  generalize names.length = n
  induction n with
  | zero => simp
  | succ n ih => simp [List.range_succ, List.foldl_append, ih, Nat.add_assoc]

omit [NatCast F] [Mul F] [Sub F] [Div F] [LT F] [∀ a b : F, Decidable (a < b)] in
/-- The flag after the `try` block: unchanged, or cleared by a reload in which
`readDnn` returned a non-empty network and names and colours were set up. -/
theorem reloadAndForward_flag (s : CYoloV4 F) (env : RunEnv F) :
    (reloadAndForward s env).1.m_bUpdate = s.m_bUpdate ∨
    ((s.m_net.empty || s.m_bUpdate) = true ∧
      ∃ net, env.readDnn = .ok net ∧ net.empty = false ∧
        (reloadAndForward s env).1.m_net = net ∧
        (reloadAndForward s env).1.m_bUpdate = false ∧
        (reloadAndForward s env).1.m_colors
          = generateColors env.rand env.RAND_MAX (reloadAndForward s env).1.m_classNames
              s.m_colors ∧
        ((if s.m_classNames.isEmpty then env.readClassNames else .ok s.m_classNames)
          = .ok (reloadAndForward s env).1.m_classNames)) := by
  unfold reloadAndForward
  by_cases hc : (s.m_net.empty || s.m_bUpdate) = true
  · simp only [hc, if_true]
    cases hr : env.readDnn with
    | error e => left; rfl
    | ok net =>
      cases hne : net.empty with
      | true => left; simp [hne]
      | false =>
        simp only [hne]
        cases hn : (if s.m_classNames.isEmpty then env.readClassNames
            else Except.ok s.m_classNames) with
        | error e => left; simp
        | ok names =>
          right
          refine ⟨trivial, net, rfl, hne, ?_⟩
          simp
  · left; simp [hc]

omit [NatCast F] [Mul F] [Sub F] [Div F] [LT F] [∀ a b : F, Decidable (a < b)] in
theorem reloadAndForward_fails (s : CYoloV4 F) (env : RunEnv F)
    (hc : (s.m_net.empty || s.m_bUpdate) = true) (hf : readDnnFails env = true) :
    (∃ e, (reloadAndForward s env).2 = .error e) ∧
    (reloadAndForward s env).1.m_bUpdate = s.m_bUpdate ∧
    (reloadAndForward s env).1.m_classNames = s.m_classNames ∧
    (reloadAndForward s env).1.m_colors = s.m_colors ∧
    ((reloadAndForward s env).1.m_net.empty || (reloadAndForward s env).1.m_bUpdate) = true := by
  unfold reloadAndForward
  unfold readDnnFails at hf
  simp only [hc, if_true]
  cases hr : env.readDnn with
  | error e => simp [hc]
  | ok net =>
    rw [hr] at hf
    simp only at hf
    simp [hf]

theorem run_state (s : CYoloV4 F) (env : RunEnv F) :
    (run s env).1 = s ∨
    (reloadAttempted s env = true ∧ (run s env).1 = (reloadAndForward s env).1) := by
  unfold run reloadAttempted
  cases h1 : env.hasInput <;> simp
  cases h2 : env.dataAvailable <;> simp
  by_cases h3 : env.channels < 3
  · simp only [h3, if_true]
    cases h4 : env.cvtColor with
    | error e => simp
    | ok u =>
      by_cases hc : (s.m_net.empty || s.m_bUpdate) = true
      · right
        have hc' : s.m_net.empty = true ∨ s.m_bUpdate = true := by simpa using hc
        refine ⟨⟨Or.inr rfl, hc'⟩, ?_⟩
        rcases hx : reloadAndForward s env with ⟨s', r⟩
        cases r with
        | error e => cases e <;> rfl
        | ok v => rfl
      · left
        have : reloadAndForward s env = (s, env.forward) := by
          unfold reloadAndForward; simp [hc]
        rw [this]
        cases env.forward with
        | error e => cases e <;> rfl
        | ok v => rfl
  · simp only [h3, if_false]
    by_cases hc : (s.m_net.empty || s.m_bUpdate) = true
    · right
      have hc' : s.m_net.empty = true ∨ s.m_bUpdate = true := by simpa using hc
      refine ⟨⟨Or.inl (Nat.le_of_not_lt h3), hc'⟩, ?_⟩
      rcases hx : reloadAndForward s env with ⟨s', r⟩
      cases r with
      | error e => cases e <;> rfl
      | ok v => rfl
    · left
      have : reloadAndForward s env = (s, env.forward) := by
        unfold reloadAndForward; simp [hc]
      rw [this]
      cases env.forward with
      | error e => cases e <;> rfl
      | ok v => rfl

end RunClaims

section RunLemmas
variable {F : Type} [NatCast F] [Mul F] [Sub F] [Div F] [LT F] [∀ a b : F, Decidable (a < b)]

/-- Every run leaves class names and colour table as they were or, when it
reloads, leaves the table longer by one colour per class name. -/
theorem colors_length_after_run (s : CYoloV4 F) (env : RunEnv F) :
    ((run s env).1.m_classNames = s.m_classNames ∧ (run s env).1.m_colors = s.m_colors) ∨
    (run s env).1.m_colors.length
      = s.m_colors.length + (run s env).1.m_classNames.length := by
  have key : ((reloadAndForward s env).1.m_classNames = s.m_classNames ∧
        (reloadAndForward s env).1.m_colors = s.m_colors) ∨
      (reloadAndForward s env).1.m_colors.length
        = s.m_colors.length + (reloadAndForward s env).1.m_classNames.length := by
    unfold reloadAndForward
    by_cases hc : (s.m_net.empty || s.m_bUpdate) = true
    · simp only [hc, if_true]
      cases env.readDnn with
      | error e => left; exact ⟨rfl, rfl⟩
      | ok net =>
        cases hne : net.empty with
        | true => left; simp [hne]
        | false =>
          simp only [hne]
          cases (if s.m_classNames.isEmpty then env.readClassNames
              else Except.ok s.m_classNames) with
          | error e => left; simp
          | ok names => right; simp [length_generateColors]
    · left; simp [hc]
  rcases run_state s env with h | ⟨_, h⟩
  · left; rw [h]; exact ⟨rfl, rfl⟩
  · rw [h]; exact key

/-- The colour table covers every class after every run, once it did before:
the precondition under which `manageOutput` reads `m_colors[i]` in range. -/
theorem colors_cover_after_run (s : CYoloV4 F) (env : RunEnv F)
    (h : s.m_classNames.length ≤ s.m_colors.length) :
    (run s env).1.m_classNames.length ≤ (run s env).1.m_colors.length := by
  rcases colors_length_after_run s env with ⟨h1, h2⟩ | h1
  · rw [h1, h2]; exact h
  · rw [h1]; exact Nat.le_add_left _ _

end RunLemmas

section RunClaims2
variable {F : Type} [NatCast F] [Mul F] [Sub F] [Div F] [LT F] [∀ a b : F, Decidable (a < b)]

/-- C7 (colour table on reload), evaluated on the code: a first load with two
class names leaves two colours; after the parameters-changed flag is set, the
next successful load leaves the two class names and four colours, the first
two being those of the first load.  `generateColors` extends the table. -/
theorem reload_extends_colors :
    (run freshTask goodEnv).1.m_classNames.length = 2 ∧
    (run freshTask goodEnv).1.m_colors.length = 2 ∧
    (run { (run freshTask goodEnv).1 with m_bUpdate := true } goodEnv).1.m_classNames.length
      = 2 ∧
    (run { (run freshTask goodEnv).1 with m_bUpdate := true } goodEnv).1.m_colors.length
      = 4 ∧
    (run { (run freshTask goodEnv).1 with m_bUpdate := true } goodEnv).1.m_colors.take 2
      = (run freshTask goodEnv).1.m_colors := by
  decide!

/-- C8 (reload flag on failure).  In every run the parameters-changed flag
`m_bUpdate` either keeps its value or is cleared by a reload in which
`readDnn` returned a non-empty network and class names and colours were then
set up.  In every run that attempts the reload and in which `readDnn` raises
or returns an empty network, `run` raises an error, `m_bUpdate` keeps the
value it had, and the reload condition `m_net.empty() || m_bUpdate` holds
again afterwards, so the next run attempts the reload again. -/
theorem reload_flag (s : CYoloV4 F) (env : RunEnv F) :
    ((run s env).1.m_bUpdate = s.m_bUpdate ∨
      (reloadAttempted s env = true ∧
        ∃ net, env.readDnn = .ok net ∧ net.empty = false ∧
          (run s env).1.m_net = net ∧
          (run s env).1.m_bUpdate = false ∧
          (run s env).1.m_colors
            = generateColors env.rand env.RAND_MAX (run s env).1.m_classNames s.m_colors ∧
          ((if s.m_classNames.isEmpty then env.readClassNames else .ok s.m_classNames)
            = .ok (run s env).1.m_classNames))) ∧
    (reloadAttempted s env = true → readDnnFails env = true →
      (∃ e, (run s env).2 = .error e) ∧
      (run s env).1.m_bUpdate = s.m_bUpdate ∧
      ((run s env).1.m_net.empty || (run s env).1.m_bUpdate) = true) := by
  constructor
  · rcases run_state s env with h | ⟨ha, h⟩
    · left; rw [h]
    · rw [h]
      rcases reloadAndForward_flag s env with hf | hf
      · left; exact hf
      · right; exact ⟨ha, hf.2⟩
  · intro ha hf
    have hc : (s.m_net.empty || s.m_bUpdate) = true := by
      unfold reloadAttempted at ha
      simp only [Bool.and_eq_true] at ha
      exact ha.2
    obtain ⟨⟨e, he⟩, hb, _, _, hn⟩ := reloadAndForward_fails s env hc hf
    have hin : env.hasInput = true ∧ env.dataAvailable = true ∧
        (if env.channels < 3 then env.cvtColor else Except.ok ()) = Except.ok () := by
      unfold reloadAttempted at ha
      simp only [Bool.and_eq_true] at ha
      refine ⟨ha.1.1.1, ha.1.1.2, ?_⟩
      by_cases h3 : env.channels < 3
      · have := ha.1.2
        simp only [h3, if_true] at this ⊢
        cases hcv : env.cvtColor with
        | error e => rw [hcv] at this; simp [Except.toBool] at this
        | ok u => trivial
      · simp [h3]
    have hrun : (run s env).1 = (reloadAndForward s env).1 ∧ ∃ e', (run s env).2 = .error e' := by
      unfold run
      simp only [hin.1, hin.2.1, hin.2.2, Bool.not_true, Bool.false_eq_true, if_false]
      rcases hx : reloadAndForward s env with ⟨s', r⟩
      rw [hx] at he
      simp only at he
      subst he
      cases e <;> exact ⟨rfl, _, rfl⟩
    rw [hrun.1]
    exact ⟨hrun.2, hb, hn⟩

/-- Witness of C8: a fresh task whose `readDnn` raises. -/
theorem reload_flag_witness :
    reloadAttempted freshTask failingEnv = true ∧ readDnnFails failingEnv = true ∧
    ((∃ e, (run freshTask failingEnv).2 = .error e) ∧
      (run freshTask failingEnv).1.m_bUpdate = freshTask.m_bUpdate ∧
      ((run freshTask failingEnv).1.m_net.empty || (run freshTask failingEnv).1.m_bUpdate)
        = true) :=
  ⟨by decide, by decide, (reload_flag freshTask failingEnv).2 (by decide) (by decide)⟩

end RunClaims2

/-! ## Network input size -/

/-- C9 as stated fails: with the largest configured size 2048 (a multiple of
32 in range), the CUDA backend, the new-input flag set and sign `+1`, the size
returned is 2080, above 2048. -/
theorem input_size_leaves_range :
    (32 ≤ (2048 : Int) ∧ (2048 : Int) ≤ 2048 ∧ (32 : Int) ∣ 2048) ∧
    getNetworkInputSize 5 2048 5 true 1 = 2080 ∧
    ¬ (32 ≤ getNetworkInputSize 5 2048 5 true 1 ∧ getNetworkInputSize 5 2048 5 true 1 ≤ 2048) := by
  decide

/-- C9 amended.  For every configured size `s` in `[32, 2048]` that is a
multiple of 32, every backend, every value of the new-input flag and every
sign in `{-1, +1}`, the size returned is a multiple of 32 in `[0, 2080]`; it
is `s` itself, hence in `[32, 2048]`, unless the backend is CUDA and the
new-input flag is set, in which case it is `s + 32 * sign`. -/
theorem input_size_range (DNN_BACKEND_CUDA s backend : Int) (newInput : Bool) (sign : Int)
    (hlo : 32 ≤ s) (hhi : s ≤ 2048) (hmul : (32 : Int) ∣ s) (hsign : sign = -1 ∨ sign = 1) :
    (32 : Int) ∣ getNetworkInputSize DNN_BACKEND_CUDA s backend newInput sign ∧
    0 ≤ getNetworkInputSize DNN_BACKEND_CUDA s backend newInput sign ∧
    getNetworkInputSize DNN_BACKEND_CUDA s backend newInput sign ≤ 2080 ∧
    (¬ (backend = DNN_BACKEND_CUDA ∧ newInput = true) →
      getNetworkInputSize DNN_BACKEND_CUDA s backend newInput sign = s) ∧
    (backend = DNN_BACKEND_CUDA ∧ newInput = true →
      getNetworkInputSize DNN_BACKEND_CUDA s backend newInput sign = s + sign * 32) := by
  by_cases h : backend = DNN_BACKEND_CUDA ∧ newInput = true
  · have hr : getNetworkInputSize DNN_BACKEND_CUDA s backend newInput sign = s + sign * 32 := by
      unfold getNetworkInputSize
      simp [h.1, h.2]
    rw [hr]
    refine ⟨?_, ?_, ?_, fun h' => absurd h h', fun _ => rfl⟩
    · rcases hsign with hs | hs <;> subst hs <;> omega
    · rcases hsign with hs | hs <;> subst hs <;> omega
    · rcases hsign with hs | hs <;> subst hs <;> omega
  · have hr : getNetworkInputSize DNN_BACKEND_CUDA s backend newInput sign = s := by
      unfold getNetworkInputSize
      have hcond : (backend == DNN_BACKEND_CUDA && newInput) = false := by
        rcases Bool.eq_false_or_eq_true (backend == DNN_BACKEND_CUDA && newInput) with hb | hb
        · exfalso; apply h
          simp only [Bool.and_eq_true, beq_iff_eq] at hb
          exact hb
        · exact hb
      simp [hcond]
    rw [hr]
    exact ⟨hmul, by omega, by omega, fun _ => rfl, fun h' => absurd h' h⟩

/-- Witness of C9 amended: size 32 on the CUDA backend with sign `-1`. -/
theorem input_size_range_witness :
    (32 : Int) ∣ getNetworkInputSize 5 32 5 true (-1) ∧
    0 ≤ getNetworkInputSize 5 32 5 true (-1) ∧
    getNetworkInputSize 5 32 5 true (-1) ≤ 2080 ∧
    (¬ ((5 : Int) = 5 ∧ true = true) → getNetworkInputSize 5 32 5 true (-1) = 32) ∧
    ((5 : Int) = 5 ∧ true = true → getNetworkInputSize 5 32 5 true (-1) = 32 + -1 * 32) :=
  input_size_range 5 32 5 true (-1) (by decide) (by decide) (by decide) (by decide)


/-! ## Configuration -/

section Rounding

theorem roundHalfEven_sub_le (x : ℚ) : |((roundHalfEven x : ℤ) : ℚ) - x| ≤ 1 / 2 := by
  have h1 : ((⌊x⌋ : ℤ) : ℚ) ≤ x := Int.floor_le x
  have h2 : x < ((⌊x⌋ : ℤ) : ℚ) + 1 := Int.lt_floor_add_one x
  unfold roundHalfEven
  simp only
  split_ifs with ha hb hc
  · rw [abs_le]; constructor <;> linarith
  · rw [abs_le]; push_cast; constructor <;> linarith
  · rw [abs_le]; constructor <;> linarith
  · rw [abs_le]; push_cast; constructor <;> linarith

theorem roundHalfEven_eq_of_close (x : ℚ) (k : ℤ) (h : |x - (k : ℚ)| < 1 / 2) :
    roundHalfEven x = k := by
  have h1 := roundHalfEven_sub_le x
  rw [abs_le] at h1
  rw [abs_lt] at h
  have h3 : ((roundHalfEven x : ℤ) : ℚ) < (k : ℚ) + 1 := by linarith
  have h4 : (k : ℚ) - 1 < ((roundHalfEven x : ℤ) : ℚ) := by linarith
  have h5 : roundHalfEven x < k + 1 := by exact_mod_cast h3
  have h6 : k - 1 < roundHalfEven x := by exact_mod_cast h4
  omega

theorem roundHalfEven_nonneg (x : ℚ) (h : 0 ≤ x) : 0 ≤ roundHalfEven x := by
  have h1 := roundHalfEven_sub_le x
  rw [abs_le] at h1
  have h4 : (-1 : ℚ) < ((roundHalfEven x : ℤ) : ℚ) := by linarith
  have h6 : -1 < roundHalfEven x := by exact_mod_cast h4
  omega

theorem roundHalfEven_le (x : ℚ) (k : ℤ) (h : x ≤ k) : roundHalfEven x ≤ k := by
  have h1 := roundHalfEven_sub_le x
  rw [abs_le] at h1
  have h3 : ((roundHalfEven x : ℤ) : ℚ) < (k : ℚ) + 1 := by linarith
  have h5 : roundHalfEven x < k + 1 := by exact_mod_cast h3
  omega

theorem exponentSearch_spec (x : ℚ) (fuel : Nat) (lo hi : ℤ) :
    exponentSearch x fuel lo hi = lo ∨ (2 : ℚ) ^ (exponentSearch x fuel lo hi) ≤ |x| := by
  induction fuel generalizing lo hi with
  | zero => left; rfl
  | succ fuel ih =>
    unfold exponentSearch
    simp only
    by_cases h : (2 : ℚ) ^ ((lo + hi) / 2) ≤ |x|
    · simp only [h, if_true]
      rcases ih ((lo + hi) / 2) hi with h' | h'
      · right; rw [h']; exact h
      · right; exact h'
    · simp only [h, if_false]
      exact ih lo ((lo + hi) / 2)

theorem binade_le_zero (x : ℚ) (h0 : 0 < x) (h1 : x ≤ 1) : binade x ≤ 0 := by
  unfold binade
  rcases exponentSearch_spec x 12 (-1022) 1026 with h | h
  · rw [h]; norm_num
  · rw [abs_of_pos h0] at h
    by_contra hc
    push_neg at hc
    have h2 : (2 : ℚ) ^ (1 : ℤ) ≤ 2 ^ (exponentSearch x 12 (-1022) 1026) :=
      zpow_le_zpow_right₀ (by norm_num) (by omega)
    have h3 : (2 : ℚ) ^ (1 : ℤ) = 2 := by norm_num
    linarith

theorem roundToDouble_close (x : ℚ) (h0 : 0 ≤ x) (h1 : x ≤ 1) :
    |roundToDouble x - x| ≤ 1 / 2 ^ 53 := by
  unfold roundToDouble
  by_cases hx : x = 0
  · simp [hx]
  · simp only [hx, if_false]
    have hpos : 0 < x := lt_of_le_of_ne h0 (Ne.symm hx)
    have he : binade x ≤ 0 := binade_le_zero x hpos h1
    set e := binade x with hedef
    have hulp_pos : (0 : ℚ) < 2 ^ (e - 52) := zpow_pos (by norm_num) _
    have hulp_le : (2 : ℚ) ^ (e - 52) ≤ 2 ^ (-52 : ℤ) :=
      zpow_le_zpow_right₀ (by norm_num) (by omega)
    have hr := roundHalfEven_sub_le (x / 2 ^ (e - 52))
    have heq : ((roundHalfEven (x / 2 ^ (e - 52)) : ℤ) : ℚ) * 2 ^ (e - 52) - x
        = (((roundHalfEven (x / 2 ^ (e - 52)) : ℤ) : ℚ) - x / 2 ^ (e - 52)) * 2 ^ (e - 52) := by
      field_simp
    rw [heq, abs_mul, abs_of_pos hulp_pos]
    calc |((roundHalfEven (x / 2 ^ (e - 52)) : ℤ) : ℚ) - x / 2 ^ (e - 52)| * 2 ^ (e - 52)
        ≤ 1 / 2 * 2 ^ (e - 52) := by
          exact mul_le_mul_of_nonneg_right hr (le_of_lt hulp_pos)
      _ ≤ 1 / 2 * 2 ^ (-52 : ℤ) := by
          exact mul_le_mul_of_nonneg_left hulp_le (by norm_num)
      _ = 1 / 2 ^ 53 := by norm_num

theorem roundToDouble_nonneg (x : ℚ) (h0 : 0 ≤ x) : 0 ≤ roundToDouble x := by
  unfold roundToDouble
  by_cases hx : x = 0
  · simp [hx]
  · simp only [hx, if_false]
    have hulp_pos : (0 : ℚ) < 2 ^ (binade x - 52) := zpow_pos (by norm_num) _
    have := roundHalfEven_nonneg (x / 2 ^ (binade x - 52))
      (div_nonneg h0 (le_of_lt hulp_pos))
    exact mul_nonneg (by exact_mod_cast this) (le_of_lt hulp_pos)

end Rounding

section Printing

theorem digitChar_isDigit : ∀ d, d < 10 → (digitChar d).isDigit = true := by decide

theorem digitChar_toNat : ∀ d, d < 10 → (digitChar d).toNat - 48 = d := by decide

theorem repr_zero_toList : (Nat.repr 0).toList = ['0'] := by decide

theorem repr_one_toList : (Nat.repr 1).toList = ['1'] := by decide

theorem parseDecimal_printed (c : Char) (hc : c.isDigit = true)
    (d1 d2 d3 d4 d5 d6 : Nat)
    (h1 : d1 < 10) (h2 : d2 < 10) (h3 : d3 < 10) (h4 : d4 < 10) (h5 : d5 < 10) (h6 : d6 < 10) :
    parseDecimal (c :: '.' :: [digitChar d1, digitChar d2, digitChar d3, digitChar d4,
        digitChar d5, digitChar d6])
      = some ((((c.toNat - 48) * 1000000 + d1 * 100000 + d2 * 10000 + d3 * 1000 + d4 * 100
          + d5 * 10 + d6 : ℕ) : ℚ) / 1000000) := by
  have e1 := digitChar_isDigit d1 h1
  have e2 := digitChar_isDigit d2 h2
  have e3 := digitChar_isDigit d3 h3
  have e4 := digitChar_isDigit d4 h4
  have e5 := digitChar_isDigit d5 h5
  have e6 := digitChar_isDigit d6 h6
  have v1 := digitChar_toNat d1 h1
  have v2 := digitChar_toNat d2 h2
  have v3 := digitChar_toNat d3 h3
  have v4 := digitChar_toNat d4 h4
  have v5 := digitChar_toNat d5 h5
  have v6 := digitChar_toNat d6 h6
  have hdot : Char.isDigit '.' = false := by decide
  have htw : List.takeWhile Char.isDigit [digitChar d1, digitChar d2, digitChar d3,
      digitChar d4, digitChar d5, digitChar d6]
      = [digitChar d1, digitChar d2, digitChar d3, digitChar d4, digitChar d5, digitChar d6] := by
    simp [List.takeWhile_cons, e1, e2, e3, e4, e5, e6]
  have hdw : List.dropWhile Char.isDigit [digitChar d1, digitChar d2, digitChar d3,
      digitChar d4, digitChar d5, digitChar d6] = [] := by
    simp [List.dropWhile_cons, e1, e2, e3, e4, e5, e6]
  simp only [parseDecimal, List.takeWhile_cons, List.dropWhile_cons, hc, hdot, if_true,
    List.takeWhile_nil, List.dropWhile_nil, htw, hdw]
  simp [digitsValue, v1, v2, v3, v4, v5, v6, htw, hdw]
  ring

end Printing

section Printing2

theorem stod_of_digit_point (c : Char) (rest : List Char) (v : ℚ)
    (hc : c = '0' ∨ c = '1') (hp : parseDecimal (c :: '.' :: rest) = some v) :
    stod (String.mk (c :: '.' :: rest)) = toDoubleChecked v := by
  rcases hc with rfl | rfl
  · have hdw : List.dropWhile isSpace ('0' :: '.' :: rest) = '0' :: '.' :: rest := by
      have hs : isSpace '0' = false := by decide
      simp [List.dropWhile_cons, hs]
    have hl : Char.toLower '0' = '0' := by decide
    simp [stod, hdw, parseUnsigned, hl, hp]
  · have hdw : List.dropWhile isSpace ('1' :: '.' :: rest) = '1' :: '.' :: rest := by
      have hs : isSpace '1' = false := by decide
      simp [List.dropWhile_cons, hs]
    have hl : Char.toLower '1' = '1' := by decide
    simp [stod, hdw, parseUnsigned, hl, hp]

theorem stod_printed (a : Nat) (ha : a = 0 ∨ a = 1) (d1 d2 d3 d4 d5 d6 : Nat)
    (h1 : d1 < 10) (h2 : d2 < 10) (h3 : d3 < 10) (h4 : d4 < 10) (h5 : d5 < 10) (h6 : d6 < 10) :
    stod (String.mk ((Nat.repr a).toList ++ '.' :: [digitChar d1, digitChar d2, digitChar d3,
        digitChar d4, digitChar d5, digitChar d6]))
      = toDoubleChecked (((a * 1000000 + d1 * 100000 + d2 * 10000 + d3 * 1000 + d4 * 100
          + d5 * 10 + d6 : ℕ) : ℚ) / 1000000) := by
  rcases ha with rfl | rfl
  · have hp := parseDecimal_printed '0' (by decide) d1 d2 d3 d4 d5 d6 h1 h2 h3 h4 h5 h6
    rw [repr_zero_toList]
    exact stod_of_digit_point '0' _ _ (Or.inl rfl) hp
  · have hp := parseDecimal_printed '1' (by decide) d1 d2 d3 d4 d5 d6 h1 h2 h3 h4 h5 h6
    rw [repr_one_toList]
    exact stod_of_digit_point '1' _ _ (Or.inr rfl) hp

end Printing2

section RoundTrip

theorem toDoubleChecked_unit (n : Nat) (hn : n ≤ 1000000) :
    toDoubleChecked ((n : ℚ) / 1000000) = .ok (.finite (roundToDouble ((n : ℚ) / 1000000))) := by
  have hx0 : (0 : ℚ) ≤ (n : ℚ) / 1000000 := by positivity
  have hx1 : (n : ℚ) / 1000000 ≤ 1 := by
    rw [div_le_one (by norm_num)]
    exact_mod_cast hn
  have hclose := roundToDouble_close _ hx0 hx1
  have hr0 := roundToDouble_nonneg _ hx0
  rw [abs_le] at hclose
  have hbig : ¬ ((2 : ℚ) ^ (1024 : ℕ) ≤ |roundToDouble ((n : ℚ) / 1000000)|) := by
    rw [abs_of_nonneg hr0, not_le]
    have h2 : (2 : ℚ) ≤ 2 ^ (1024 : ℕ) := by
      calc (2 : ℚ) = 2 ^ (1 : ℕ) := by norm_num
        _ ≤ 2 ^ (1024 : ℕ) := pow_le_pow_right₀ (by norm_num) (by norm_num)
    have h3 : (1 : ℚ) / 2 ^ 53 ≤ 1 := by norm_num
    linarith [hclose.2]
  have hsmall : ¬ ((n : ℚ) / 1000000 ≠ 0 ∧ |(n : ℚ) / 1000000| < (2 : ℚ) ^ (-1022 : ℤ) ∧
      roundToDouble ((n : ℚ) / 1000000) ≠ (n : ℚ) / 1000000) := by
    rintro ⟨hne, hlt, _⟩
    have hn1 : 1 ≤ n := by
      rcases Nat.eq_zero_or_pos n with h | h
      · exfalso; apply hne; simp [h]
      · exact h
    rw [abs_of_nonneg hx0] at hlt
    have h4 : (1 : ℚ) / 1000000 ≤ (n : ℚ) / 1000000 := by
      apply div_le_div_of_nonneg_right _ (by norm_num)
      exact_mod_cast hn1
    have h5 : (2 : ℚ) ^ (-1022 : ℤ) ≤ 2 ^ (-20 : ℤ) :=
      zpow_le_zpow_right₀ (by norm_num) (by norm_num)
    have h6 : (2 : ℚ) ^ (-20 : ℤ) ≤ 1 / 1000000 := by norm_num
    linarith
  unfold toDoubleChecked
  simp only [hbig, hsmall, if_false]

theorem stod_to_string_finite (q : ℚ) (h0 : 0 ≤ q) (h1 : q ≤ 1) :
    stod (to_string (.finite q))
      = .ok (.finite (roundToDouble
          (((roundHalfEven (q * 1000000)).toNat : ℚ) / 1000000))) := by
  have hn0 : 0 ≤ roundHalfEven (q * 1000000) := roundHalfEven_nonneg _ (by positivity)
  have hn1 : roundHalfEven (q * 1000000) ≤ 1000000 :=
    roundHalfEven_le _ 1000000 (by push_cast; linarith)
  have hn : (roundHalfEven (q * 1000000)).toNat ≤ 1000000 := by omega
  set n := (roundHalfEven (q * 1000000)).toNat with hndef
  have ha : n / 1000000 = 0 ∨ n / 1000000 = 1 := by omega
  have hm : n % 1000000 < 1000000 := Nat.mod_lt _ (by norm_num)
  have hstr : to_string (.finite q)
      = String.mk ((Nat.repr (n / 1000000)).toList ++ '.' :: fracDigits (n % 1000000)) := by
    simp only [to_string, abs_of_nonneg h0, not_lt.2 h0, if_false, List.nil_append, hndef]
  rw [hstr, fracDigits, stod_printed (n / 1000000) ha _ _ _ _ _ _
    (Nat.mod_lt _ (by norm_num)) (Nat.mod_lt _ (by norm_num)) (Nat.mod_lt _ (by norm_num))
    (Nat.mod_lt _ (by norm_num)) (Nat.mod_lt _ (by norm_num)) (Nat.mod_lt _ (by norm_num))]
  have hsum : n / 1000000 * 1000000 + n % 1000000 / 100000 % 10 * 100000
      + n % 1000000 / 10000 % 10 * 10000 + n % 1000000 / 1000 % 10 * 1000
      + n % 1000000 / 100 % 10 * 100 + n % 1000000 / 10 % 10 * 10 + n % 1000000 % 10 = n := by
    omega
  rw [hsum]
  exact toDoubleChecked_unit n hn

theorem roundHalfEven_roundToDouble (k : Nat) (hk : k ≤ 1000000) :
    roundHalfEven (roundToDouble ((k : ℚ) / 1000000) * 1000000) = (k : ℤ) := by
  have hx0 : (0 : ℚ) ≤ (k : ℚ) / 1000000 := by positivity
  have hx1 : (k : ℚ) / 1000000 ≤ 1 := by
    rw [div_le_one (by norm_num)]
    exact_mod_cast hk
  have hclose := roundToDouble_close _ hx0 hx1
  apply roundHalfEven_eq_of_close
  have heq : roundToDouble ((k : ℚ) / 1000000) * 1000000 - ((k : ℤ) : ℚ)
      = (roundToDouble ((k : ℚ) / 1000000) - (k : ℚ) / 1000000) * 1000000 := by
    push_cast; ring
  rw [heq, abs_mul, abs_of_pos (by norm_num : (0 : ℚ) < 1000000)]
  calc |roundToDouble ((k : ℚ) / 1000000) - (k : ℚ) / 1000000| * 1000000
      ≤ 1 / 2 ^ 53 * 1000000 := mul_le_mul_of_nonneg_right hclose (by norm_num)
    _ < 1 / 2 := by norm_num

end RoundTrip

section ParamMap

theorem getParamMap_at {B : Type} (ops : BaseParamOps B) (p : CYoloV4Param B)
    (hk1 : (ops.getParamMap p.base).lookup "confidence" = none)
    (hk2 : (ops.getParamMap p.base).lookup "nmsThreshold" = none) :
    (p.getParamMap ops).at_ "confidence" = .ok (to_string p.m_confidence) ∧
    (p.getParamMap ops).at_ "nmsThreshold" = .ok (to_string p.m_nmsThreshold) := by
  have hne : ("nmsThreshold" == "confidence") = false := by decide
  have hne' : ("confidence" == "nmsThreshold") = false := by decide
  have h1 : (ops.getParamMap p.base).insert "confidence" (to_string p.m_confidence)
      = ops.getParamMap p.base ++ [("confidence", to_string p.m_confidence)] := by
    simp [UMapString.insert, hk1]
  have h2 : (ops.getParamMap p.base ++ [("confidence", to_string p.m_confidence)]).lookup
      "nmsThreshold" = none := by
    rw [List.lookup_append, hk2]
    simp [List.lookup_cons, hne]
  have h3 : p.getParamMap ops
      = ops.getParamMap p.base ++ [("confidence", to_string p.m_confidence)]
          ++ [("nmsThreshold", to_string p.m_nmsThreshold)] := by
    simp only [CYoloV4Param.getParamMap, h1]
    simp [UMapString.insert, h2]
  rw [h3]
  constructor
  · simp [UMapString.at_, List.lookup_append, hk1, List.lookup_cons]
  · simp [UMapString.at_, List.lookup_append, hk2, List.lookup_cons, hne]

end ParamMap


section ConfigClaims

theorem eq_ok_of_toBool (e : Except Exn Unit) (h : e.toBool = true) : e = .ok () := by
  cases e with
  | error _ => simp [Except.toBool] at h
  | ok u => rfl

theorem toDoubleChecked_error (x : ℚ) (e : Exn) (h : toDoubleChecked x = .error e) :
    e = .out_of_range := by
  unfold toDoubleChecked at h
  simp only at h
  split_ifs at h <;> exact (Except.error.inj h).symm

theorem parseDecimal_eq_none_iff (cs : List Char) :
    parseDecimal cs = none ↔ leadsDecimal cs = false := by
  cases cs with
  | nil => simp [parseDecimal, leadsDecimal]
  | cons c t =>
    by_cases hd : c.isDigit = true
    · have h1 : leadsDecimal (c :: t) = true := by
        cases t <;> simp [leadsDecimal, hd]
      have h2 : parseDecimal (c :: t) ≠ none := by
        simp [parseDecimal, List.takeWhile_cons, hd]
      rw [h1]
      exact ⟨fun h => absurd h h2, fun h => by cases h⟩
    · have hd' : c.isDigit = false := by simpa using hd
      by_cases hdot : c = '.'
      · subst hdot
        cases t with
        | nil => simp [parseDecimal, leadsDecimal, List.takeWhile_cons, List.dropWhile_cons, hd']
        | cons d u =>
          by_cases hdd : d.isDigit = true
          · simp [parseDecimal, leadsDecimal, List.takeWhile_cons, List.dropWhile_cons,
              hd', hdd]
          · have hdd' : d.isDigit = false := by simpa using hdd
            simp [parseDecimal, leadsDecimal, List.takeWhile_cons, List.dropWhile_cons,
              hd', hdd']
      · have h1 : leadsDecimal (c :: t) = false := by
          cases t <;> simp [leadsDecimal, hd', hdot]
        have h2 : parseDecimal (c :: t) = none := by
          simp only [parseDecimal, List.takeWhile_cons, List.dropWhile_cons, hd']
          split <;> simp_all
        rw [h1, h2]
        exact ⟨fun _ => rfl, fun _ => rfl⟩

theorem parseUnsigned_eq_none_iff (body : List Char) :
    parseUnsigned body = none ↔
      (!((body.take 3).map Char.toLower == ['i', 'n', 'f'] ||
          (body.take 3).map Char.toLower == ['n', 'a', 'n'] || leadsDecimal body)) = true := by
  by_cases hinf : (body.take 3).map Char.toLower = ['i', 'n', 'f']
  · simp [parseUnsigned, hinf]
  · by_cases hnan : (body.take 3).map Char.toLower = ['n', 'a', 'n']
    · simp [parseUnsigned, hinf, hnan]
    · have hb1 : ((body.take 3).map Char.toLower == ['i', 'n', 'f']) = false := by
        simpa using hinf
      have hb2 : ((body.take 3).map Char.toLower == ['n', 'a', 'n']) = false := by
        simpa using hnan
      rw [hb1, hb2]
      simp only [Bool.false_or, Bool.not_eq_true', ← parseDecimal_eq_none_iff]
      simp only [parseUnsigned, hinf, hnan, if_false]
      split
      · next v hv =>
        have hdec : parseDecimal body ≠ none := by
          split at hv
          · rw [Ne, parseDecimal_eq_none_iff]
            simp [leadsDecimal]
          · cases hv
        exact Iff.intro (fun h => by cases h) (fun h => absurd h hdec)
      · simp

theorem stod_invalid_argument_iff (str : String) :
    stod str = .error .invalid_argument ↔ noLeadingNumber str = true := by
  unfold noLeadingNumber
  simp only
  rw [← parseUnsigned_eq_none_iff]
  unfold stod
  simp only
  split
  · next h => exact ⟨fun _ => h, fun _ => rfl⟩
  · next h => exact Iff.intro (fun h' => by cases h') (fun h' => by rw [h'] at h; cases h)
  · next h => exact Iff.intro (fun h' => by cases h') (fun h' => by rw [h'] at h; cases h)
  · next v h =>
    constructor
    · intro h'
      have := toDoubleChecked_error _ _ h'
      cases this
    · intro h'
      rw [h'] at h
      cases h

theorem setParamMap_of_base_error {B : Type} (ops : BaseParamOps B) (p : CYoloV4Param B)
    (paramMap : UMapString) (e : Exn) (h : (ops.setParamMap p.base paramMap).2 = .error e) :
    (p.setParamMap ops paramMap).2 = .error e := by
  unfold CYoloV4Param.setParamMap
  rcases hx : ops.setParamMap p.base paramMap with ⟨b, r⟩
  rw [hx] at h
  simp only at h
  subst h
  rfl

theorem setParamMap_of_base_ok {B : Type} (ops : BaseParamOps B) (p : CYoloV4Param B)
    (paramMap : UMapString) (h : (ops.setParamMap p.base paramMap).2 = .ok ()) :
    p.setParamMap ops paramMap
      = (match (paramMap.at_ "confidence").bind stod with
        | .error e => ({ p with base := (ops.setParamMap p.base paramMap).1 }, .error e)
        | .ok c =>
          match (paramMap.at_ "nmsThreshold").bind stod with
          | .error e => ({ p with base := (ops.setParamMap p.base paramMap).1,
                                  m_confidence := c }, .error e)
          | .ok n => ({ p with base := (ops.setParamMap p.base paramMap).1,
                               m_confidence := c, m_nmsThreshold := n }, .ok ())) := by
  unfold CYoloV4Param.setParamMap
  rcases hx : ops.setParamMap p.base paramMap with ⟨b, r⟩
  rw [hx] at h
  simp only at h
  subst h
  rfl

end ConfigClaims

section ConfigClaims2

theorem stod_error (str : String) (e : Exn) (h : stod str = .error e) :
    e = .invalid_argument ∨ e = .out_of_range := by
  unfold stod at h
  simp only at h
  split at h
  · left; exact (Except.error.inj h).symm
  · cases h
  · cases h
  · right; exact toDoubleChecked_error _ _ h

theorem field_error (paramMap : UMapString) (key : String) (e : Exn)
    (h : (paramMap.at_ key).bind stod = .error e) :
    e = .invalid_argument ∨ e = .out_of_range := by
  unfold UMapString.at_ at h
  cases hl : paramMap.lookup key with
  | none =>
    rw [hl] at h
    right; exact (Except.error.inj h).symm
  | some v =>
    rw [hl] at h
    exact stod_error v e h

theorem stod_to_string_sixDecimals (q : ℚ) (h0 : 0 ≤ q) (h1 : q ≤ 1) :
    stod (to_string (.finite q)) = .ok (.finite (roundToDouble (sixDecimals q))) := by
  rw [stod_to_string_finite q h0 h1, sixDecimals]
  have hn0 : 0 ≤ roundHalfEven (q * 1000000) := roundHalfEven_nonneg _ (by positivity)
  have hcast : (((roundHalfEven (q * 1000000)).toNat : ℕ) : ℚ)
      = ((roundHalfEven (q * 1000000) : ℤ) : ℚ) := by
    have := Int.toNat_of_nonneg hn0
    exact_mod_cast this
  rw [hcast]

theorem sixDecimals_roundToDouble (k : Nat) (hk : k ≤ 1000000) :
    sixDecimals (roundToDouble ((k : ℚ) / 1000000)) = (k : ℚ) / 1000000 := by
  rw [sixDecimals, roundHalfEven_roundToDouble k hk]
  push_cast
  rfl

end ConfigClaims2

section ConfigClaims3

/-- C5 as stated fails: the record with confidence `2^-21` (a binary64 value
in `[0,1]`) is written as `"0.000000"` by `getParamMap`, and `setParamMap`
reads the confidence `0` back from that map. -/
theorem config_round_trip_loses_digits :
    ((0 : ℚ) ≤ 1 / 2 ^ 21 ∧ (1 : ℚ) / 2 ^ 21 ≤ 1 ∧
      roundToDouble (1 / 2 ^ 21) = 1 / 2 ^ 21) ∧
    fineParam.getParamMap plainBase
      = [("confidence", "0.000000"), ("nmsThreshold", "0.250000")] ∧
    (fineParam.setParamMap plainBase (fineParam.getParamMap plainBase)).2 = .ok () ∧
    (fineParam.setParamMap plainBase (fineParam.getParamMap plainBase)).1.m_confidence
      = .finite 0 ∧
    (fineParam.setParamMap plainBase (fineParam.getParamMap plainBase)).1.m_confidence
      ≠ fineParam.m_confidence :=
  ⟨by decide!, by decide!, eq_ok_of_toBool _ (by decide!), by decide!, by decide!⟩

/-- C5 amended.  Let `p` have confidence `c` and nmsThreshold `n` in `[0,1]`,
let the base class's own map contain neither key and let the base class
accept the map written by `getParamMap`.  Then `setParamMap` on that map
succeeds and reads back `c` and `n` rounded to six decimals (the digits
`std::to_string` writes) and then to the nearest double.  The values read
back are exactly those of `p` whenever the value of `p` is the double nearest
to a decimal with at most six fractional digits. -/
theorem config_round_trip {B : Type} (ops : BaseParamOps B) (p q : CYoloV4Param B)
    (c n : ℚ) (hc : p.m_confidence = .finite c) (hn : p.m_nmsThreshold = .finite n)
    (hc0 : 0 ≤ c) (hc1 : c ≤ 1) (hn0 : 0 ≤ n) (hn1 : n ≤ 1)
    (hk1 : (ops.getParamMap p.base).lookup "confidence" = none)
    (hk2 : (ops.getParamMap p.base).lookup "nmsThreshold" = none)
    (hbase : (ops.setParamMap q.base (p.getParamMap ops)).2 = .ok ()) :
    (q.setParamMap ops (p.getParamMap ops)).2 = .ok () ∧
    (q.setParamMap ops (p.getParamMap ops)).1.m_confidence
      = .finite (roundToDouble (sixDecimals c)) ∧
    (q.setParamMap ops (p.getParamMap ops)).1.m_nmsThreshold
      = .finite (roundToDouble (sixDecimals n)) ∧
    ((∃ k : ℕ, k ≤ 1000000 ∧ c = roundToDouble ((k : ℚ) / 1000000)) →
      (q.setParamMap ops (p.getParamMap ops)).1.m_confidence = p.m_confidence) ∧
    ((∃ k : ℕ, k ≤ 1000000 ∧ n = roundToDouble ((k : ℚ) / 1000000)) →
      (q.setParamMap ops (p.getParamMap ops)).1.m_nmsThreshold = p.m_nmsThreshold) := by
  obtain ⟨ha1, ha2⟩ := getParamMap_at ops p hk1 hk2
  have hs1 : (UMapString.at_ (p.getParamMap ops) "confidence").bind stod
      = .ok (.finite (roundToDouble (sixDecimals c))) := by
    rw [ha1, hc]
    exact stod_to_string_sixDecimals c hc0 hc1
  have hs2 : (UMapString.at_ (p.getParamMap ops) "nmsThreshold").bind stod
      = .ok (.finite (roundToDouble (sixDecimals n))) := by
    rw [ha2, hn]
    exact stod_to_string_sixDecimals n hn0 hn1
  have hrun := setParamMap_of_base_ok ops q (p.getParamMap ops) hbase
  rw [hs1, hs2] at hrun
  simp only at hrun
  rw [hrun]
  refine ⟨rfl, rfl, rfl, ?_, ?_⟩
  · rintro ⟨k, hk, rfl⟩
    simp only [hc, sixDecimals_roundToDouble k hk]
  · rintro ⟨k, hk, rfl⟩
    simp only [hn, sixDecimals_roundToDouble k hk]

/-- Witness of C5 amended: the default thresholds 0.5 and 0.4 are read back
exactly. -/
theorem config_round_trip_witness :
    (defaultParam.setParamMap plainBase (defaultParam.getParamMap plainBase)).2 = .ok () ∧
    (defaultParam.setParamMap plainBase (defaultParam.getParamMap plainBase)).1.m_confidence
      = defaultParam.m_confidence ∧
    (defaultParam.setParamMap plainBase (defaultParam.getParamMap plainBase)).1.m_nmsThreshold
      = defaultParam.m_nmsThreshold := by
  have h := config_round_trip plainBase defaultParam defaultParam (1 / 2)
    (roundToDouble (2 / 5)) rfl rfl (by decide!) (by decide!) (by decide!) (by decide!)
    rfl rfl rfl
  exact ⟨h.1, h.2.2.2.1 ⟨500000, by decide, by decide!⟩,
    h.2.2.2.2 ⟨400000, by decide, by decide!⟩⟩

end ConfigClaims3

section ConfigClaims4

theorem eq_error_of_beq (e : Except Exn Unit) (x : Exn)
    (h : (match e with
      | .error y => decide (y = x)
      | .ok _ => false) = true) : e = .error x := by
  cases e with
  | error y => simp only [decide_eq_true_eq] at h; rw [h]
  | ok u => simp at h

/-- C6 as stated fails.  With `"abc"` as confidence `setParamMap` does fail,
but with `std::invalid_argument`, not with a `CException`; and with
`"0.5abc"`, not a floating-point literal either, it succeeds and stores the
confidence `0.5`. -/
theorem malformed_config_counterexample :
    (defaultParam.setParamMap plainBase
        [("confidence", "abc"), ("nmsThreshold", "0.4")]).2 = .error .invalid_argument ∧
    (defaultParam.setParamMap plainBase
        [("confidence", "0.5abc"), ("nmsThreshold", "0.4")]).2 = .ok () ∧
    (defaultParam.setParamMap plainBase
        [("confidence", "0.5abc"), ("nmsThreshold", "0.4")]).1.m_confidence
      = .finite (1 / 2) :=
  ⟨eq_error_of_beq _ _ (by decide!), eq_ok_of_toBool _ (by decide!), by decide!⟩

/-- The texts `std::stod` converts nothing of are exactly those without a
leading number; among them `"abc"`, `"null"`, `"none"`, `"n/a"`, `"invalid"`,
`"."`, `"-."` and the empty text. -/
theorem stod_rejects_samples :
    ∀ str ∈ ["abc", "null", "none", "n/a", "invalid", ".", "-.", "", " +", "e5", "x1"],
      stod str = .error .invalid_argument := by
  intro str hmem
  rw [stod_invalid_argument_iff]
  revert str
  decide

/-- C6 amended.  When `std::stod` throws on the `"confidence"` or the
`"nmsThreshold"` entry of the map, `setParamMap` fails, inside `setParamMap`.
That is so for every entry without a leading number, such as `"abc"`, on
which `std::stod` throws `std::invalid_argument` (`stod_invalid_argument_iff`
gives these entries exactly), and for a leading number outside the range of
`double`.  The exception is the one `std::stod` throws when the base class
accepts the map and the entry is `"confidence"`, or is `"nmsThreshold"` with a
`"confidence"` that converts; in no case is it a `CException` unless the base
class raised that very exception. -/
theorem malformed_config_rejected {B : Type} (ops : BaseParamOps B) (p : CYoloV4Param B)
    (paramMap : UMapString) (s : String) (e₀ : Exn) (hbad : stod s = .error e₀)
    (hentry : paramMap.lookup "confidence" = some s ∨
      paramMap.lookup "nmsThreshold" = some s) :
    (∃ e, (p.setParamMap ops paramMap).2 = .error e) ∧
    ((ops.setParamMap p.base paramMap).2 = .ok () →
      paramMap.lookup "confidence" = some s →
      (p.setParamMap ops paramMap).2 = .error e₀) ∧
    ((ops.setParamMap p.base paramMap).2 = .ok () →
      (∃ c, (paramMap.at_ "confidence").bind stod = .ok c) →
      paramMap.lookup "nmsThreshold" = some s →
      (p.setParamMap ops paramMap).2 = .error e₀) ∧
    (∀ code what, (p.setParamMap ops paramMap).2 = .error (.CException code what) →
      (ops.setParamMap p.base paramMap).2 = .error (.CException code what)) := by
  cases hb : (ops.setParamMap p.base paramMap).2 with
  | error e =>
    have hr := setParamMap_of_base_error ops p paramMap e hb
    refine ⟨⟨e, hr⟩, ?_, ?_, ?_⟩
    · intro h
      cases h
    · intro h
      cases h
    · intro code what h
      rw [hr] at h
      exact h
  | ok u =>
    have hb' : (ops.setParamMap p.base paramMap).2 = .ok () := hb
    have hr := setParamMap_of_base_ok ops p paramMap hb'
    have hconf : paramMap.lookup "confidence" = some s →
        (p.setParamMap ops paramMap).2 = .error e₀ := by
      intro hl
      have : (UMapString.at_ paramMap "confidence").bind stod = .error e₀ := by
        simp only [UMapString.at_, hl]
        exact hbad
      rw [hr, this]
    have hnms : (∃ c, (UMapString.at_ paramMap "confidence").bind stod = .ok c) →
        paramMap.lookup "nmsThreshold" = some s →
        (p.setParamMap ops paramMap).2 = .error e₀ := by
      rintro ⟨c, hc⟩ hl
      have hn : (UMapString.at_ paramMap "nmsThreshold").bind stod = .error e₀ := by
        simp only [UMapString.at_, hl]
        exact hbad
      rw [hr, hc, hn]
    have hfail : ∃ e, (p.setParamMap ops paramMap).2 = .error e ∧
        (e = .invalid_argument ∨ e = .out_of_range) := by
      rcases hentry with hl | hl
      · exact ⟨_, hconf hl, stod_error s e₀ hbad⟩
      · cases hc : (UMapString.at_ paramMap "confidence").bind stod with
        | error e =>
          refine ⟨e, ?_, field_error paramMap "confidence" e hc⟩
          rw [hr, hc]
        | ok c => exact ⟨e₀, hnms ⟨c, hc⟩ hl, stod_error s e₀ hbad⟩
    obtain ⟨e, he, hcls⟩ := hfail
    refine ⟨⟨e, he⟩, fun _ => hconf, fun _ => hnms, ?_⟩
    intro code what h
    rw [he] at h
    rcases hcls with h' | h' <;> rw [h'] at h <;> cases h

/-- Witness of C6 amended: the entry `"null"` as nmsThreshold. -/
theorem malformed_config_rejected_witness :
    ∃ e, (defaultParam.setParamMap plainBase
        [("confidence", "0.5"), ("nmsThreshold", "null")]).2 = .error e :=
  (malformed_config_rejected plainBase defaultParam
    [("confidence", "0.5"), ("nmsThreshold", "null")] "null" .invalid_argument
    ((stod_invalid_argument_iff "null").2 (by decide)) (Or.inr (by decide))).1

end ConfigClaims4

end YoloV4
